import Mathlib

/-!
Verification of the resilient task-scheduling core of the phantom-security
backend: the token bucket and adaptive rate limiter
(`app/core/resilience/rate_limiter.py`), the circuit breaker
(`app/core/resilience/circuit_breaker.py`), and the parallel task executor
(`app/core/scanner/parallel_executor.py`).

Conventions of the embedding:
* Python floats (timestamps, token counts, delays) are modelled as `ℚ`.
* `random.random()` samples are passed in as explicit parameters `r ∈ [0,1)`.
* Exceptions are modelled as constructors of explicit result types.
* Async methods are modelled as pure state-transforming functions; the
  executor is modelled with run-to-completion semantics (a started task
  finishes before the coordinator starts the next one), which fixes one
  legal interleaving of the event loop.
-/

namespace Phantom

/-! ## Token bucket (`rate_limiter.py`, class `TokenBucket`) -/

structure TokenBucket where
  capacity : ℚ
  tokens : ℚ
  refill_rate : ℚ
  last_refill : ℚ
deriving Repr, DecidableEq

/-- `TokenBucket.__post_init__`: the bucket starts full. -/
def TokenBucket.init (capacity refill_rate now : ℚ) : TokenBucket :=
  { capacity := capacity, tokens := capacity, refill_rate := refill_rate, last_refill := now }

/-- `TokenBucket._refill`: add `elapsed * refill_rate` tokens, clamped to capacity. -/
def TokenBucket.refill (b : TokenBucket) (now : ℚ) : TokenBucket :=
  let elapsed := now - b.last_refill
  { b with last_refill := now,
           tokens := min b.capacity (b.tokens + elapsed * b.refill_rate) }

/-- `TokenBucket.try_consume`: refill, then consume `n` tokens if available.
The requested amount is an `int` count in the source (`tokens: int = 1`). -/
def TokenBucket.tryConsume (b : TokenBucket) (now : ℚ) (n : ℕ) : Bool × TokenBucket :=
  let b' := b.refill now
  if n ≤ b'.tokens then (true, { b' with tokens := b'.tokens - n })
  else (false, b')

/-- The data-model invariant `0 ≤ tokens ≤ capacity`. -/
def TokenBucket.Inv (b : TokenBucket) : Prop :=
  0 ≤ b.tokens ∧ b.tokens ≤ b.capacity

instance (b : TokenBucket) : Decidable b.Inv := by
  unfold TokenBucket.Inv; infer_instance

/-- An observation step on the bucket: a bare refill or a consume attempt,
each stamped with the wall-clock time at which it happens. -/
inductive TBOp where
  | refillOp (now : ℚ)
  | consumeOp (now : ℚ) (n : ℕ)
deriving Repr, DecidableEq

def TBOp.time : TBOp → ℚ
  | .refillOp now => now
  | .consumeOp now _ => now

def TokenBucket.runOp (b : TokenBucket) : TBOp → TokenBucket
  | .refillOp now => b.refill now
  | .consumeOp now n => (b.tryConsume now n).2

def TokenBucket.runOps (b : TokenBucket) : List TBOp → TokenBucket
  | [] => b
  | op :: rest => (b.runOp op).runOps rest

/-- The op timestamps are nondecreasing starting from `t`. -/
def timesOk (t : ℚ) : List TBOp → Bool
  | [] => true
  | op :: rest => decide (t ≤ op.time) && timesOk op.time rest

theorem TokenBucket.refill_inv (b : TokenBucket) (now : ℚ)
    (hinv : b.Inv) (hrate : 0 ≤ b.refill_rate) (hsince : b.last_refill ≤ now) :
    (b.refill now).Inv ∧ (b.refill now).last_refill = now ∧
      (b.refill now).refill_rate = b.refill_rate ∧
      (b.refill now).capacity = b.capacity := by
  obtain ⟨h0, hc⟩ := hinv
  refine ⟨⟨?_, ?_⟩, rfl, rfl, rfl⟩
  · simp only [TokenBucket.refill, le_min_iff]
    constructor
    · exact le_trans h0 hc
    · have : 0 ≤ (now - b.last_refill) * b.refill_rate :=
        mul_nonneg (by linarith) hrate
      linarith
  · simp only [TokenBucket.refill]
    exact min_le_left _ _

theorem TokenBucket.runOp_inv (b : TokenBucket) (op : TBOp)
    (hinv : b.Inv) (hrate : 0 ≤ b.refill_rate) (hsince : b.last_refill ≤ op.time) :
    (b.runOp op).Inv ∧ (b.runOp op).last_refill = op.time ∧
      (b.runOp op).refill_rate = b.refill_rate ∧
      (b.runOp op).capacity = b.capacity := by
  cases op with
  | refillOp now =>
      exact b.refill_inv now hinv hrate hsince
  | consumeOp now n =>
      obtain ⟨⟨h0, hc⟩, hlr, hrr, hcap⟩ := b.refill_inv now hinv hrate hsince
      simp only [TokenBucket.runOp, TokenBucket.tryConsume]
      split
      · rename_i hle
        have hn : (0:ℚ) ≤ (n:ℚ) := Nat.cast_nonneg n
        exact ⟨⟨by simpa using sub_nonneg.mpr hle, by dsimp; linarith⟩, hlr, hrr, hcap⟩
      · exact ⟨⟨h0, hc⟩, hlr, hrr, hcap⟩

theorem TokenBucket.runOps_inv (ops : List TBOp) (b : TokenBucket)
    (hinv : b.Inv) (hrate : 0 ≤ b.refill_rate) (hchain : timesOk b.last_refill ops = true) :
    (b.runOps ops).Inv := by
  induction ops generalizing b with
  | nil => exact hinv
  | cons op rest ih =>
      simp only [timesOk, Bool.and_eq_true, decide_eq_true_eq] at hchain
      obtain ⟨hinv', hlr, hrr, _⟩ := b.runOp_inv op hinv hrate hchain.1
      exact ih _ hinv' (hrr ▸ hrate) (by rw [hlr]; exact hchain.2)

/-- C7. For every token bucket satisfying the invariant, with nonnegative
refill rate and nondecreasing observation times, every sequence of refill
and try_consume operations preserves `0 ≤ tokens ≤ capacity`; and a consume
of `n` tokens when fewer than `n` are available (after the internal refill)
returns failure and performs no decrement — in particular, when no time has
elapsed since the last refill the token count is literally unchanged. -/
theorem tokenBucket_inv_and_failed_consume (b : TokenBucket) (ops : List TBOp)
    (hinv : b.Inv) (hrate : 0 ≤ b.refill_rate)
    (hchain : timesOk b.last_refill ops = true) :
    (b.runOps ops).Inv ∧
      (∀ (now : ℚ) (n : ℕ), (b.refill now).tokens < n →
        b.tryConsume now n = (false, b.refill now)) ∧
      (∀ n : ℕ, b.tokens < n →
        (b.tryConsume b.last_refill n).1 = false ∧
          (b.tryConsume b.last_refill n).2.tokens = b.tokens) := by
  have hrefl : (b.refill b.last_refill).tokens = b.tokens := by
    simp only [TokenBucket.refill, sub_self, zero_mul, add_zero]
    exact min_eq_right hinv.2
  refine ⟨TokenBucket.runOps_inv ops b hinv hrate hchain, ?_, ?_⟩
  · intro now n hlt
    simp only [TokenBucket.tryConsume]
    rw [if_neg (not_le.mpr hlt)]
  · intro n hlt
    have hlt' : (b.refill b.last_refill).tokens < n := by rw [hrefl]; exact hlt
    simp only [TokenBucket.tryConsume]
    rw [if_neg (not_le.mpr hlt')]
    exact ⟨rfl, hrefl⟩

/-- Witness for `tokenBucket_inv_and_failed_consume` at a concrete bucket. -/
theorem tokenBucket_inv_and_failed_consume_witness :
    ((TokenBucket.init 10 1 0).runOps [.refillOp 1, .consumeOp 2 3]).Inv ∧
      ((TokenBucket.init 10 1 0).tryConsume 0 11).1 = false ∧
      ((TokenBucket.init 10 1 0).tryConsume 0 11).2.tokens = 10 := by
  have h := tokenBucket_inv_and_failed_consume (TokenBucket.init 10 1 0)
    [.refillOp 1, .consumeOp 2 3] (by decide) (by decide) (by decide)
  refine ⟨h.1, (h.2.2 11 (by decide)).1, ?_⟩
  have := (h.2.2 11 (by decide)).2
  simpa [TokenBucket.init] using this

/-! ## Backoff calculator (`rate_limiter.py`, class `BackoffCalculator`) -/

inductive BackoffStrategy where
  | fixed
  | linear
  | exponential
  | exponentialJitter
  | fibonacci
deriving Repr, DecidableEq

/-- `BackoffCalculator._fibonacci`: 1, 1, 2, 3, 5, ... -/
def fibDelay : ℕ → ℕ
  | 0 => 1
  | 1 => 1
  | n + 2 => fibDelay n + fibDelay (n + 1)

/-- `BackoffCalculator.calculate_backoff`. The callers always pass
`attempt ≥ 1`; `r` is the `random.random()` sample used by the jitter
strategy. The result is clamped to `max 0 (min max_delay _)`. -/
def calculateBackoff (strategy : BackoffStrategy) (attempt : ℕ)
    (initial_delay max_delay multiplier jitter_factor r : ℚ) : ℚ :=
  let delay : ℚ :=
    match strategy with
    | .fixed => initial_delay
    | .linear => initial_delay * attempt
    | .exponential => initial_delay * multiplier ^ (attempt - 1)
    | .exponentialJitter =>
        let d := initial_delay * multiplier ^ (attempt - 1)
        d + d * jitter_factor * (r - 1/2)
    | .fibonacci => initial_delay * fibDelay attempt
  max 0 (min max_delay delay)

/-- C8. For the Exponential strategy with a multiplier ≥ 1 (which covers the
configured default 2.0), nonnegative initial delay and nonnegative max delay:
the delay is nondecreasing in the attempt number, and is bounded by
`max_delay` at every attempt. -/
theorem exponential_backoff_monotone_bounded
    (initial_delay max_delay multiplier jitter_factor r : ℚ) (attempt : ℕ)
    (h0 : 0 ≤ initial_delay) (h1 : 0 ≤ max_delay) (hm : 1 ≤ multiplier)
    (ha : 1 ≤ attempt) :
    calculateBackoff .exponential attempt initial_delay max_delay multiplier jitter_factor r ≤
      calculateBackoff .exponential (attempt + 1) initial_delay max_delay multiplier jitter_factor r ∧
    calculateBackoff .exponential attempt initial_delay max_delay multiplier jitter_factor r ≤
      max_delay := by
  constructor
  · simp only [calculateBackoff]
    have hpow : multiplier ^ (attempt - 1) ≤ multiplier ^ (attempt + 1 - 1) :=
      pow_le_pow_right₀ hm (by omega)
    have hd : initial_delay * multiplier ^ (attempt - 1) ≤
        initial_delay * multiplier ^ (attempt + 1 - 1) :=
      mul_le_mul_of_nonneg_left hpow h0
    exact max_le_max le_rfl (min_le_min le_rfl hd)
  · simp only [calculateBackoff]
    exact max_le h1 (min_le_left _ _)

/-- Witness for `exponential_backoff_monotone_bounded`. -/
theorem exponential_backoff_monotone_bounded_witness :
    calculateBackoff .exponential 3 1 300 2 (1/10) 0 ≤
      calculateBackoff .exponential 4 1 300 2 (1/10) 0 ∧
    calculateBackoff .exponential 3 1 300 2 (1/10) 0 ≤ 300 :=
  exponential_backoff_monotone_bounded 1 300 2 (1/10) 0 3
    (by norm_num) (by norm_num) (by norm_num) (by norm_num)

/-! ## Adaptive rate limiter (`rate_limiter.py`, class `AdaptiveRateLimiter`) -/

/-- `RateLimitConfig` (the fields the limiter reads at run time). -/
structure RateLimitConfig where
  max_requests : ℤ
  time_window_seconds : ℚ
  burst_capacity : ℕ
  burst_refill_rate : ℚ
  backoff_strategy : BackoffStrategy
  initial_backoff_seconds : ℚ
  max_backoff_seconds : ℚ
  backoff_multiplier : ℚ
  jitter_factor : ℚ
  failure_threshold : ℕ
deriving Repr, DecidableEq

/-- Python `int(q)`: truncation toward zero. -/
def pyInt (q : ℚ) : ℤ :=
  if 0 ≤ q then ⌊q⌋ else ⌈q⌉

/-- The mutable state of one `AdaptiveRateLimiter` (its own fields plus the
`RateLimitMetrics` counters it updates). -/
structure RateLimiterState where
  token_bucket : TokenBucket
  request_times : List ℚ
  consecutive_failures : ℕ
  last_failure_time : Option ℚ
  backoff_until : ℚ
  adaptive_multiplier : ℚ
  success_streak : ℕ
  failure_streak : ℕ
  total_requests : ℕ
  allowed_requests : ℕ
  rejected_requests : ℕ
  requests_in_current_window : ℕ
  current_window_start : ℚ
  backoff_triggered : ℕ
  current_backoff_seconds : ℚ
deriving Repr, DecidableEq

/-- `RateLimitMetrics.reset_window_if_needed`. -/
def resetWindowIfNeeded (cfg : RateLimitConfig) (s : RateLimiterState) (now : ℚ) :
    RateLimiterState :=
  if cfg.time_window_seconds ≤ now - s.current_window_start then
    { s with requests_in_current_window := 0, current_window_start := now }
  else s

/-- `AdaptiveRateLimiter._record_success`. -/
def recordSuccess (s : RateLimiterState) : RateLimiterState :=
  let s := { s with consecutive_failures := 0, failure_streak := 0,
                    success_streak := s.success_streak + 1 }
  if 10 < s.success_streak ∧ s.adaptive_multiplier < 1 then
    { s with adaptive_multiplier := min 1 (s.adaptive_multiplier + 1/10) }
  else s

/-- `AdaptiveRateLimiter._trigger_backoff`; `r` is the jitter sample used by
the backoff calculator. -/
def triggerBackoff (cfg : RateLimitConfig) (s : RateLimiterState) (now r : ℚ) :
    RateLimiterState :=
  let delay := calculateBackoff cfg.backoff_strategy (min s.consecutive_failures 10)
    cfg.initial_backoff_seconds cfg.max_backoff_seconds cfg.backoff_multiplier
    cfg.jitter_factor r
  { s with backoff_until := now + delay,
           backoff_triggered := s.backoff_triggered + 1,
           current_backoff_seconds := delay }

/-- `AdaptiveRateLimiter._record_failure`. -/
def recordFailure (cfg : RateLimitConfig) (s : RateLimiterState) (now r : ℚ) :
    RateLimiterState :=
  let s := { s with consecutive_failures := s.consecutive_failures + 1,
                    success_streak := 0,
                    failure_streak := s.failure_streak + 1,
                    last_failure_time := some now }
  let s := if 3 < s.failure_streak then
    { s with adaptive_multiplier := max (1/10) (s.adaptive_multiplier - 1/5) }
  else s
  if cfg.failure_threshold ≤ s.consecutive_failures then triggerBackoff cfg s now r
  else s

/-- `AdaptiveRateLimiter._check_sliding_window`. Prunes old timestamps, then
either rejects (recording a failure) or appends `tokens` copies of `now`. -/
def checkSlidingWindow (cfg : RateLimitConfig) (s : RateLimiterState)
    (now : ℚ) (tokens : ℕ) (r : ℚ) : Bool × RateLimiterState :=
  let window_start := now - cfg.time_window_seconds
  let times := s.request_times.filter (fun t => window_start < t)
  let s := { s with request_times := times }
  let adjusted : ℤ := pyInt ((cfg.max_requests : ℚ) * s.adaptive_multiplier)
  if adjusted < (times.length : ℤ) + (tokens : ℤ) then
    let s := { s with rejected_requests := s.rejected_requests + 1 }
    (false, recordFailure cfg s now r)
  else
    (true, { s with request_times := times ++ List.replicate tokens now })

/-- `AdaptiveRateLimiter._calculate_retry_after`; `r` is the jitter sample. -/
def calculateRetryAfter (cfg : RateLimitConfig) (s : RateLimiterState) (r : ℚ) : ℚ :=
  let tokens_available := s.token_bucket.tokens
  let retry_after :=
    if tokens_available < 1 then (1 - tokens_available) / cfg.burst_refill_rate
    else 1 / cfg.burst_refill_rate
  retry_after + retry_after * (1/10) * r

/-- Outcome of `AdaptiveRateLimiter.acquire` at its public interface:
`allowed` is `return True`, `rejectedWindow` is `return False`, and the two
`...Rejected` constructors are the `RateLimitExceededException` raises with
their `retry_after` payload. -/
inductive AcquireResult where
  | allowed
  | rejectedWindow
  | backoffRejected (retry_after : ℚ)
  | bucketRejected (retry_after : ℚ)
deriving Repr, DecidableEq

/-- State after the backoff gate of `acquire`: metrics window reset and
`total_requests` incremented. -/
def acquirePre (cfg : RateLimitConfig) (s : RateLimiterState) (now : ℚ) :
    RateLimiterState :=
  let s := resetWindowIfNeeded cfg s now
  { s with total_requests := s.total_requests + 1 }

/-- `AdaptiveRateLimiter.acquire`. `r1` is the jitter sample consumed if a
backoff is triggered, `r2` the one consumed by `_calculate_retry_after`. -/
def acquire (cfg : RateLimitConfig) (s : RateLimiterState) (now : ℚ)
    (tokens : ℕ) (r1 r2 : ℚ) : AcquireResult × RateLimiterState :=
  if now < s.backoff_until then
    (.backoffRejected (s.backoff_until - now),
     { s with rejected_requests := s.rejected_requests + 1 })
  else
    let s := acquirePre cfg s now
    match checkSlidingWindow cfg s now tokens r1 with
    | (false, s) => (.rejectedWindow, s)
    | (true, s) =>
      match s.token_bucket.tryConsume now tokens with
      | (false, b) =>
          let s := { s with token_bucket := b,
                            rejected_requests := s.rejected_requests + 1 }
          (.bucketRejected (calculateRetryAfter cfg s r2), s)
      | (true, b) =>
          let s := { s with token_bucket := b,
                            allowed_requests := s.allowed_requests + 1,
                            requests_in_current_window :=
                              s.requests_in_current_window + tokens }
          (.allowed, recordSuccess s)

theorem recordFailure_counters (cfg : RateLimitConfig) (s : RateLimiterState)
    (now r : ℚ) :
    (recordFailure cfg s now r).consecutive_failures = s.consecutive_failures + 1 ∧
      (recordFailure cfg s now r).success_streak = 0 ∧
      (cfg.failure_threshold ≤ s.consecutive_failures + 1 →
        (recordFailure cfg s now r).backoff_until =
          now + calculateBackoff cfg.backoff_strategy (min (s.consecutive_failures + 1) 10)
            cfg.initial_backoff_seconds cfg.max_backoff_seconds cfg.backoff_multiplier
            cfg.jitter_factor r) := by
  unfold recordFailure triggerBackoff
  dsimp only
  split <;> split <;> rename_i hth <;>
    first
      | exact ⟨rfl, rfl, fun _ => rfl⟩
      | exact ⟨rfl, rfl, fun h => absurd h hth⟩

theorem checkSlidingWindow_false_counters (cfg : RateLimitConfig)
    (s : RateLimiterState) (now : ℚ) (tokens : ℕ) (r : ℚ)
    (h : (checkSlidingWindow cfg s now tokens r).1 = false) :
    (checkSlidingWindow cfg s now tokens r).2.consecutive_failures =
        s.consecutive_failures + 1 ∧
      (checkSlidingWindow cfg s now tokens r).2.success_streak = 0 ∧
      (cfg.failure_threshold ≤ s.consecutive_failures + 1 →
        (checkSlidingWindow cfg s now tokens r).2.backoff_until =
          now + calculateBackoff cfg.backoff_strategy (min (s.consecutive_failures + 1) 10)
            cfg.initial_backoff_seconds cfg.max_backoff_seconds cfg.backoff_multiplier
            cfg.jitter_factor r) := by
  unfold checkSlidingWindow at h ⊢
  dsimp only at h ⊢
  split
  · exact ⟨(recordFailure_counters cfg _ now r).1,
      (recordFailure_counters cfg _ now r).2.1,
      fun hth => (recordFailure_counters cfg _ now r).2.2 hth⟩
  · rename_i hcond
    rw [if_neg hcond] at h
    cases h

theorem checkSlidingWindow_true_frame (cfg : RateLimitConfig)
    (s : RateLimiterState) (now : ℚ) (tokens : ℕ) (r : ℚ)
    (h : (checkSlidingWindow cfg s now tokens r).1 = true) :
    (checkSlidingWindow cfg s now tokens r).2.consecutive_failures =
        s.consecutive_failures ∧
      (checkSlidingWindow cfg s now tokens r).2.success_streak = s.success_streak ∧
      (checkSlidingWindow cfg s now tokens r).2.backoff_until = s.backoff_until ∧
      (checkSlidingWindow cfg s now tokens r).2.token_bucket = s.token_bucket := by
  unfold checkSlidingWindow at h ⊢
  dsimp only at h ⊢
  split
  · rename_i hcond
    rw [if_pos hcond] at h
    cases h
  · exact ⟨rfl, rfl, rfl, rfl⟩

theorem calculateRetryAfter_pos (cfg : RateLimitConfig) (s : RateLimiterState) (r : ℚ)
    (hrate : 0 < cfg.burst_refill_rate) (hr : 0 ≤ r) :
    0 < calculateRetryAfter cfg s r := by
  unfold calculateRetryAfter
  dsimp only
  have hbase : 0 < if s.token_bucket.tokens < 1 then
      (1 - s.token_bucket.tokens) / cfg.burst_refill_rate
    else 1 / cfg.burst_refill_rate := by
    split
    · rename_i hlt
      exact div_pos (by linarith) hrate
    · exact div_pos one_pos hrate
  have hj : 0 ≤ (if s.token_bucket.tokens < 1 then
      (1 - s.token_bucket.tokens) / cfg.burst_refill_rate
    else 1 / cfg.burst_refill_rate) * (1/10) * r :=
    mul_nonneg (mul_nonneg hbase.le (by norm_num)) hr
  linarith

/-- C6. A call to `acquire` made strictly before `backoff_until` is rejected
immediately with a backoff-period `RateLimitExceededException` and leaves
both the sliding window (`request_times`) and the token bucket (token count
and `last_refill`) exactly as they were. -/
theorem backoff_rejection_preserves_window_and_bucket (cfg : RateLimitConfig)
    (s : RateLimiterState) (now : ℚ) (tokens : ℕ) (r1 r2 : ℚ)
    (h : now < s.backoff_until) :
    (acquire cfg s now tokens r1 r2).1 = .backoffRejected (s.backoff_until - now) ∧
      (acquire cfg s now tokens r1 r2).2.request_times = s.request_times ∧
      (acquire cfg s now tokens r1 r2).2.token_bucket = s.token_bucket := by
  unfold acquire
  rw [if_pos h]
  exact ⟨rfl, rfl, rfl⟩

/-- Example rate-limiter configuration (the source defaults, with the
deterministic Exponential strategy). -/
def rlCfgEx : RateLimitConfig :=
  { max_requests := 100, time_window_seconds := 60, burst_capacity := 10,
    burst_refill_rate := 1, backoff_strategy := .exponential,
    initial_backoff_seconds := 1, max_backoff_seconds := 300,
    backoff_multiplier := 2, jitter_factor := 1/10, failure_threshold := 5 }

/-- `rlCfgEx` with a zero request ceiling, so the sliding window rejects. -/
def rlCfgZero : RateLimitConfig :=
  { rlCfgEx with max_requests := 0 }

/-- Example limiter state: empty window, empty token bucket, no backoff. -/
def rlStateEx : RateLimiterState :=
  { token_bucket := { capacity := 10, tokens := 0, refill_rate := 1, last_refill := 5 },
    request_times := [], consecutive_failures := 0, last_failure_time := none,
    backoff_until := 0, adaptive_multiplier := 1, success_streak := 0,
    failure_streak := 0, total_requests := 0, allowed_requests := 0,
    rejected_requests := 0, requests_in_current_window := 0,
    current_window_start := 0, backoff_triggered := 0, current_backoff_seconds := 0 }

/-- `rlStateEx` inside a backoff period that ends at time 10. -/
def rlStateBk : RateLimiterState :=
  { rlStateEx with backoff_until := 10 }

/-- Witness for `backoff_rejection_preserves_window_and_bucket`. -/
theorem backoff_rejection_preserves_window_and_bucket_witness :
    (acquire rlCfgEx rlStateBk 5 1 0 0).1 = .backoffRejected 5 ∧
      (acquire rlCfgEx rlStateBk 5 1 0 0).2.request_times = rlStateBk.request_times ∧
      (acquire rlCfgEx rlStateBk 5 1 0 0).2.token_bucket = rlStateBk.token_bucket := by
  have h := backoff_rejection_preserves_window_and_bucket rlCfgEx rlStateBk 5 1 0 0
    (by norm_num [rlStateBk, rlStateEx])
  have hbu : rlStateBk.backoff_until - (5:ℚ) = 5 := by norm_num [rlStateBk, rlStateEx]
  exact ⟨by rw [h.1, hbu], h.2.1, h.2.2⟩

/-- C5 counterexample: an `acquire` rejected by the token-bucket check does
NOT record a failure — `consecutive_failures` stays 0 instead of being
incremented, refuting the claim that either rejection kind records one. -/
theorem bucket_rejection_skips_failure_accounting :
    (acquire rlCfgEx rlStateEx 5 1 0 0).1 = .bucketRejected 1 ∧
      rlStateEx.consecutive_failures = 0 ∧
      (acquire rlCfgEx rlStateEx 5 1 0 0).2.consecutive_failures = 0 ∧
      (acquire rlCfgEx rlStateEx 5 1 0 0).2.backoff_until = rlStateEx.backoff_until := by
  norm_num [acquire, acquirePre, resetWindowIfNeeded, checkSlidingWindow, pyInt,
    recordSuccess, recordFailure, triggerBackoff, calculateBackoff,
    calculateRetryAfter, TokenBucket.tryConsume, TokenBucket.refill,
    min_def, max_def, Int.floor_intCast, rlCfgEx, rlStateEx]

/-- C5 as amended. On a sliding-window rejection the limiter records a
failure: `consecutive_failures` is incremented, the success streak is reset
to 0, and if the new count reaches `failure_threshold` then `backoff_until`
becomes `now` plus the computed backoff delay. On a token-bucket rejection
no failure is recorded: the failure counter, success streak and
`backoff_until` are all unchanged (only the rejected-request metric moves). -/
theorem rejection_failure_accounting (cfg : RateLimitConfig) (s : RateLimiterState)
    (now : ℚ) (tokens : ℕ) (r1 r2 : ℚ) (hb : ¬ now < s.backoff_until) :
    ((acquire cfg s now tokens r1 r2).1 = .rejectedWindow →
      (acquire cfg s now tokens r1 r2).2.consecutive_failures =
          s.consecutive_failures + 1 ∧
        (acquire cfg s now tokens r1 r2).2.success_streak = 0 ∧
        (cfg.failure_threshold ≤ s.consecutive_failures + 1 →
          (acquire cfg s now tokens r1 r2).2.backoff_until =
            now + calculateBackoff cfg.backoff_strategy
              (min (s.consecutive_failures + 1) 10) cfg.initial_backoff_seconds
              cfg.max_backoff_seconds cfg.backoff_multiplier cfg.jitter_factor r1)) ∧
    (∀ ra, (acquire cfg s now tokens r1 r2).1 = .bucketRejected ra →
      (acquire cfg s now tokens r1 r2).2.consecutive_failures =
          s.consecutive_failures ∧
        (acquire cfg s now tokens r1 r2).2.success_streak = s.success_streak ∧
        (acquire cfg s now tokens r1 r2).2.backoff_until = s.backoff_until) := by
  have hpre : (acquirePre cfg s now).consecutive_failures = s.consecutive_failures ∧
      (acquirePre cfg s now).success_streak = s.success_streak ∧
      (acquirePre cfg s now).backoff_until = s.backoff_until := by
    unfold acquirePre resetWindowIfNeeded
    dsimp only
    split <;> exact ⟨rfl, rfl, rfl⟩
  unfold acquire
  rw [if_neg hb]
  rcases hcw : checkSlidingWindow cfg (acquirePre cfg s now) now tokens r1 with ⟨b, st⟩
  cases b
  · have h1 := checkSlidingWindow_false_counters cfg (acquirePre cfg s now) now tokens r1
      (by rw [hcw])
    rw [hcw] at h1
    rw [hpre.1] at h1
    simp only [hcw]
    exact ⟨fun _ => ⟨h1.1, h1.2.1, h1.2.2⟩, fun ra h => by cases h⟩
  · have h2 := checkSlidingWindow_true_frame cfg (acquirePre cfg s now) now tokens r1
      (by rw [hcw])
    rw [hcw] at h2
    simp only [hcw]
    rcases htc : st.token_bucket.tryConsume now tokens with ⟨ok, bkt⟩
    cases ok
    · simp only [htc]
      first
        | exact fun ra h =>
            ⟨h2.1.trans hpre.1, h2.2.1.trans hpre.2.1, h2.2.2.1.trans hpre.2.2⟩
        | exact ⟨fun h => by simp at h, fun ra h =>
            ⟨h2.1.trans hpre.1, h2.2.1.trans hpre.2.1, h2.2.2.1.trans hpre.2.2⟩⟩
    · simp only [htc]
      all_goals
        first
          | trivial
          | exact ⟨fun h => by simp at h, fun ra h => by simp at h⟩

/-- Witness for `rejection_failure_accounting`: with a zero request ceiling
the window rejects and the failure counter is incremented; with the bucket
empty the bucket rejects and the counter is unchanged. -/
theorem rejection_failure_accounting_witness :
    (acquire rlCfgZero rlStateEx 5 1 0 0).2.consecutive_failures =
        rlStateEx.consecutive_failures + 1 ∧
      (acquire rlCfgZero rlStateEx 5 1 0 0).2.success_streak = 0 ∧
      (acquire rlCfgEx rlStateEx 5 1 0 0).2.consecutive_failures =
        rlStateEx.consecutive_failures := by
  have h1 := rejection_failure_accounting rlCfgZero rlStateEx 5 1 0 0
    (by norm_num [rlStateEx])
  have h2 := rejection_failure_accounting rlCfgEx rlStateEx 5 1 0 0
    (by norm_num [rlStateEx])
  have hw : (acquire rlCfgZero rlStateEx 5 1 0 0).1 = .rejectedWindow := by
    norm_num [acquire, acquirePre, resetWindowIfNeeded, checkSlidingWindow, pyInt,
      recordSuccess, recordFailure, triggerBackoff, calculateBackoff,
      calculateRetryAfter, TokenBucket.tryConsume, TokenBucket.refill,
      min_def, max_def, Int.floor_intCast, rlCfgZero, rlCfgEx, rlStateEx]
  have hbk : (acquire rlCfgEx rlStateEx 5 1 0 0).1 = .bucketRejected 1 := by
    norm_num [acquire, acquirePre, resetWindowIfNeeded, checkSlidingWindow, pyInt,
      recordSuccess, recordFailure, triggerBackoff, calculateBackoff,
      calculateRetryAfter, TokenBucket.tryConsume, TokenBucket.refill,
      min_def, max_def, Int.floor_intCast, rlCfgEx, rlStateEx]
  exact ⟨(h1.1 hw).1, (h1.1 hw).2.1, (h2.2 1 hbk).1⟩

/-- C9. `acquire` distinguishes its rejection kinds at the public interface:
a backoff-period rejection and a token-bucket rejection each raise with a
strictly positive `retry_after`; a sliding-window rejection is the bare
`return False` outcome, produced exactly when the backoff gate passes and
the window check fails; and `acquire` returns True exactly when the backoff
gate, the sliding-window check and the token-bucket check all admit. -/
theorem acquire_interface_kinds (cfg : RateLimitConfig) (s : RateLimiterState)
    (now : ℚ) (tokens : ℕ) (r1 r2 : ℚ)
    (hrate : 0 < cfg.burst_refill_rate) (hr2 : 0 ≤ r2) :
    (∀ ra, (acquire cfg s now tokens r1 r2).1 = .backoffRejected ra → 0 < ra) ∧
      (∀ ra, (acquire cfg s now tokens r1 r2).1 = .bucketRejected ra → 0 < ra) ∧
      ((acquire cfg s now tokens r1 r2).1 = .rejectedWindow ↔
        ¬ now < s.backoff_until ∧
          (checkSlidingWindow cfg (acquirePre cfg s now) now tokens r1).1 = false) ∧
      ((acquire cfg s now tokens r1 r2).1 = .allowed ↔
        ¬ now < s.backoff_until ∧
          (checkSlidingWindow cfg (acquirePre cfg s now) now tokens r1).1 = true ∧
          ((checkSlidingWindow cfg (acquirePre cfg s now) now tokens r1).2.token_bucket.tryConsume
              now tokens).1 = true) := by
  unfold acquire
  by_cases hb : now < s.backoff_until
  · rw [if_pos hb]
    refine ⟨fun ra h => ?_, fun ra h => absurd h (by simp), ?_, ?_⟩
    · have h' : s.backoff_until - now = ra := by simpa using h
      linarith
    · simp [hb]
    · simp [hb]
  · rw [if_neg hb]
    rcases hcw : checkSlidingWindow cfg (acquirePre cfg s now) now tokens r1 with ⟨b, st⟩
    cases b
    · simp only [hcw]
      refine ⟨fun ra h => absurd h (by simp), fun ra h => absurd h (by simp), ?_, ?_⟩
      · simp [hb]
      · simp [hb]
    · rcases htc : st.token_bucket.tryConsume now tokens with ⟨ok, bkt⟩
      cases ok
      · simp only [hcw, htc]
        refine ⟨fun ra h => absurd h (by simp), fun ra h => ?_, ?_, ?_⟩
        · have h' : calculateRetryAfter cfg
              { st with token_bucket := bkt,
                        rejected_requests := st.rejected_requests + 1 } r2 = ra := by
            simpa using h
          rw [← h']
          exact calculateRetryAfter_pos cfg _ r2 hrate hr2
        · simp [hb]
        · simp [hb, htc]
      · simp only [hcw, htc]
        refine ⟨fun ra h => absurd h (by simp), fun ra h => absurd h (by simp), ?_, ?_⟩
        · simp [hb]
        · simp [hb, htc]

/-- Witness for `acquire_interface_kinds`: the token-bucket rejection at the
example state carries the strictly positive retry-after 1. -/
theorem acquire_interface_kinds_witness :
    (acquire rlCfgEx rlStateEx 5 1 0 0).1 = .bucketRejected 1 ∧ (0:ℚ) < 1 := by
  have h := acquire_interface_kinds rlCfgEx rlStateEx 5 1 0 0
    (by norm_num [rlCfgEx]) le_rfl
  have hbk : (acquire rlCfgEx rlStateEx 5 1 0 0).1 = .bucketRejected 1 := by
    norm_num [acquire, acquirePre, resetWindowIfNeeded, checkSlidingWindow, pyInt,
      recordSuccess, recordFailure, triggerBackoff, calculateBackoff,
      calculateRetryAfter, TokenBucket.tryConsume, TokenBucket.refill,
      min_def, max_def, Int.floor_intCast, rlCfgEx, rlStateEx]
  exact ⟨hbk, h.2.1 1 hbk⟩

/-! ## Circuit breaker (`circuit_breaker.py`, class `CircuitBreaker`)

The `open` state is named `opened` (`open` is a Lean keyword). `call` takes
the operation's outcome as a boolean (`true` = the wrapped operation would
succeed); timeouts are recorded as failures in the source and are covered by
the `false` outcome. -/

namespace CB

inductive CircuitState where
  | closed
  | opened
  | halfOpen
deriving Repr, DecidableEq

structure CircuitBreakerConfig where
  failure_threshold : ℕ
  recovery_timeout : ℚ
  success_threshold : ℕ
  max_calls_per_minute : ℕ
deriving Repr, DecidableEq

/-- The breaker's mutable state (`CircuitBreaker` fields plus the
`CircuitBreakerMetrics` counters it updates). -/
structure CBState where
  state : CircuitState
  consecutive_failures : ℕ
  consecutive_successes : ℕ
  last_failure_time : Option ℚ
  total_requests : ℕ
  successful_requests : ℕ
  failed_requests : ℕ
  circuit_open_count : ℕ
  calls_in_current_minute : ℕ
  current_minute : ℤ
deriving Repr, DecidableEq

/-- `CircuitBreakerMetrics.reset_rate_limit`: zero the per-minute counter
when the wall-clock minute changes. -/
def resetRateLimit (cb : CBState) (now : ℚ) : CBState :=
  let m : ℤ := ⌊now / 60⌋
  if m ≠ cb.current_minute then
    { cb with calls_in_current_minute := 0, current_minute := m }
  else cb

/-- `CircuitBreaker._check_circuit_state`. In the Open state the breaker
moves to HalfOpen only when `last_failure_time` is truthy (Python: a `None`
or `0.0` value fails the `if self.last_failure_time and ...` test) and the
recovery timeout has elapsed; otherwise it raises `CircuitOpenException`,
modelled as `.error ()`. -/
def checkCircuitState (cfg : CircuitBreakerConfig) (cb : CBState) (now : ℚ) :
    Except Unit CBState :=
  if cb.state = .opened then
    match cb.last_failure_time with
    | some t =>
        if t ≠ 0 ∧ cfg.recovery_timeout ≤ now - t then
          .ok { cb with state := .halfOpen, consecutive_successes := 0 }
        else .error ()
    | none => .error ()
  else .ok cb

/-- `CircuitBreaker._record_success`. -/
def recordSuccess (cfg : CircuitBreakerConfig) (cb : CBState) : CBState :=
  let cb := { cb with successful_requests := cb.successful_requests + 1,
                      consecutive_failures := 0,
                      consecutive_successes := cb.consecutive_successes + 1 }
  if cb.state = .halfOpen ∧ cfg.success_threshold ≤ cb.consecutive_successes then
    { cb with state := .closed }
  else cb

/-- `CircuitBreaker._record_failure`. -/
def recordFailure (cfg : CircuitBreakerConfig) (cb : CBState) (now : ℚ) : CBState :=
  let cb := { cb with failed_requests := cb.failed_requests + 1,
                      consecutive_successes := 0,
                      consecutive_failures := cb.consecutive_failures + 1,
                      last_failure_time := some now }
  if cb.state = .closed ∧ cfg.failure_threshold ≤ cb.consecutive_failures then
    { cb with state := .opened, circuit_open_count := cb.circuit_open_count + 1 }
  else if cb.state = .halfOpen then
    { cb with state := .opened, circuit_open_count := cb.circuit_open_count + 1 }
  else cb

/-- Outcome of `CircuitBreaker.call`: the two rejection exceptions, or a
completed invocation of the wrapped operation. -/
inductive CallResult where
  | rateLimited
  | circuitOpen
  | completed (ok : Bool)
deriving Repr, DecidableEq

/-- Whether the wrapped operation was actually invoked. -/
def CallResult.invoked : CallResult → Bool
  | .completed _ => true
  | _ => false

/-- `CircuitBreaker.call`: rate-limit gate, then circuit-state gate, then
the invocation with success/failure accounting. -/
def call (cfg : CircuitBreakerConfig) (cb : CBState) (now : ℚ)
    (opSucceeds : Bool) : CallResult × CBState :=
  let cb := resetRateLimit cb now
  if cfg.max_calls_per_minute ≤ cb.calls_in_current_minute then
    (.rateLimited, cb)
  else
    match checkCircuitState cfg cb now with
    | .error _ => (.circuitOpen, cb)
    | .ok cb =>
        let cb := { cb with total_requests := cb.total_requests + 1,
                            calls_in_current_minute := cb.calls_in_current_minute + 1 }
        if opSucceeds then (.completed true, recordSuccess cfg cb)
        else (.completed false, recordFailure cfg cb now)

/-- Apply `_record_success` `n` times in sequence. -/
def recordSuccesses (cfg : CircuitBreakerConfig) : ℕ → CBState → CBState
  | 0, cb => cb
  | n + 1, cb => recordSuccesses cfg n (recordSuccess cfg cb)

theorem resetRateLimit_frame (cb : CBState) (now : ℚ) :
    (resetRateLimit cb now).state = cb.state ∧
      (resetRateLimit cb now).last_failure_time = cb.last_failure_time := by
  unfold resetRateLimit
  dsimp only
  split <;> exact ⟨rfl, rfl⟩

theorem checkCircuitState_open_early (cfg : CircuitBreakerConfig) (cb : CBState)
    (now t : ℚ) (h1 : cb.state = .opened) (h2 : cb.last_failure_time = some t)
    (h3 : now - t < cfg.recovery_timeout) :
    checkCircuitState cfg cb now = .error () := by
  unfold checkCircuitState
  rw [if_pos h1, h2]
  dsimp only
  rw [if_neg (fun h => absurd h.2 (not_le.mpr h3))]

theorem checkCircuitState_open_recover (cfg : CircuitBreakerConfig) (cb : CBState)
    (now t : ℚ) (h1 : cb.state = .opened) (h2 : cb.last_failure_time = some t)
    (ht : t ≠ 0) (h3 : cfg.recovery_timeout ≤ now - t) :
    checkCircuitState cfg cb now =
      .ok { cb with state := .halfOpen, consecutive_successes := 0 } := by
  unfold checkCircuitState
  rw [if_pos h1, h2]
  dsimp only
  rw [if_pos ⟨ht, h3⟩]

theorem recordFailure_closed_lt (cfg : CircuitBreakerConfig) (cb : CBState) (now : ℚ)
    (hcb : cb.state = .closed)
    (hlt : cb.consecutive_failures + 1 < cfg.failure_threshold) :
    (recordFailure cfg cb now).state = .closed ∧
      (recordFailure cfg cb now).consecutive_failures = cb.consecutive_failures + 1 := by
  unfold recordFailure
  dsimp only
  rw [if_neg (fun h => absurd h.2 (by omega))]
  rw [if_neg (by rw [hcb]; intro h; cases h)]
  exact ⟨hcb, rfl⟩

theorem recordFailure_closed_ge (cfg : CircuitBreakerConfig) (cb : CBState) (now : ℚ)
    (hcb : cb.state = .closed)
    (hge : cfg.failure_threshold ≤ cb.consecutive_failures + 1) :
    (recordFailure cfg cb now).state = .opened := by
  unfold recordFailure
  dsimp only
  rw [if_pos ⟨hcb, hge⟩]

theorem recordFailure_halfOpen (cfg : CircuitBreakerConfig) (cb : CBState) (now : ℚ)
    (hcb : cb.state = .halfOpen) :
    (recordFailure cfg cb now).state = .opened := by
  unfold recordFailure
  dsimp only
  rw [if_neg (by rw [hcb]; intro h; cases h.1)]
  rw [if_pos hcb]

theorem recordSuccess_halfOpen_ge (cfg : CircuitBreakerConfig) (cb : CBState)
    (hcb : cb.state = .halfOpen)
    (hge : cfg.success_threshold ≤ cb.consecutive_successes + 1) :
    (recordSuccess cfg cb).state = .closed := by
  unfold recordSuccess
  dsimp only
  rw [if_pos ⟨hcb, hge⟩]

theorem recordSuccess_halfOpen_lt (cfg : CircuitBreakerConfig) (cb : CBState)
    (hcb : cb.state = .halfOpen)
    (hlt : cb.consecutive_successes + 1 < cfg.success_threshold) :
    (recordSuccess cfg cb).state = .halfOpen ∧
      (recordSuccess cfg cb).consecutive_successes = cb.consecutive_successes + 1 := by
  unfold recordSuccess
  dsimp only
  rw [if_neg (fun h => absurd h.2 (by omega))]
  exact ⟨hcb, rfl⟩

theorem recordSuccesses_to_closed (cfg : CircuitBreakerConfig) :
    ∀ (k : ℕ) (cb : CBState), cb.state = .halfOpen →
      cb.consecutive_successes + k = cfg.success_threshold → 1 ≤ k →
      (recordSuccesses cfg k cb).state = .closed := by
  intro k
  induction k with
  | zero => intro cb _ _ hk; omega
  | succ n ih =>
      intro cb hho hcount _
      show (recordSuccesses cfg n (recordSuccess cfg cb)).state = .closed
      rcases Nat.eq_zero_or_pos n with hn | hn
      · subst hn
        exact recordSuccess_halfOpen_ge cfg cb hho (by omega)
      · obtain ⟨hst, hcs⟩ := recordSuccess_halfOpen_lt cfg cb hho (by omega)
        exact ih (recordSuccess cfg cb) hst (by omega) hn

/-- C1. The circuit-breaker transition law with `failure_threshold = 3`:
(a) three consecutive recorded failures starting Closed with a zero failure
count leave the breaker Open (and it is still Closed after two);
(b) while Open with `now - last_failure_time < recovery_timeout` (and the
per-minute call cap not reached), any call is rejected with the circuit-open
error and the wrapped operation is not invoked, whatever its outcome would
have been;
(c) once `recovery_timeout ≤ now - last_failure_time`, the state check moves
the breaker to HalfOpen and the next call invokes the operation;
(d) in HalfOpen a single recorded failure reopens the circuit;
(e) from HalfOpen with a zero success count, `success_threshold` consecutive
recorded successes close it. -/
theorem circuit_breaker_transition_law (cfg : CircuitBreakerConfig)
    (h3 : cfg.failure_threshold = 3) (hst : 1 ≤ cfg.success_threshold) :
    (∀ (cb : CBState) (t1 t2 t3 : ℚ), cb.state = .closed →
      cb.consecutive_failures = 0 →
      (recordFailure cfg (recordFailure cfg cb t1) t2).state = .closed ∧
      (recordFailure cfg (recordFailure cfg (recordFailure cfg cb t1) t2) t3).state =
        .opened) ∧
    (∀ (cb : CBState) (now t : ℚ) (opS : Bool), cb.state = .opened →
      cb.last_failure_time = some t → now - t < cfg.recovery_timeout →
      (resetRateLimit cb now).calls_in_current_minute < cfg.max_calls_per_minute →
      (call cfg cb now opS).1 = .circuitOpen ∧
        (call cfg cb now opS).1.invoked = false) ∧
    (∀ (cb : CBState) (now t : ℚ) (opS : Bool), cb.state = .opened →
      cb.last_failure_time = some t → t ≠ 0 → cfg.recovery_timeout ≤ now - t →
      (resetRateLimit cb now).calls_in_current_minute < cfg.max_calls_per_minute →
      (∃ cb', checkCircuitState cfg (resetRateLimit cb now) now = .ok cb' ∧
          cb'.state = .halfOpen) ∧
        (call cfg cb now opS).1.invoked = true) ∧
    (∀ (cb : CBState) (now : ℚ), cb.state = .halfOpen →
      (recordFailure cfg cb now).state = .opened) ∧
    (∀ cb : CBState, cb.state = .halfOpen → cb.consecutive_successes = 0 →
      (recordSuccesses cfg cfg.success_threshold cb).state = .closed) := by
  refine ⟨?_, ?_, ?_, ?_, ?_⟩
  · intro cb t1 t2 t3 hcb hcf
    obtain ⟨hs1, hc1⟩ := recordFailure_closed_lt cfg cb t1 hcb (by omega)
    obtain ⟨hs2, hc2⟩ := recordFailure_closed_lt cfg (recordFailure cfg cb t1) t2 hs1
      (by omega)
    refine ⟨hs2, ?_⟩
    exact recordFailure_closed_ge cfg _ t3 hs2 (by omega)
  · intro cb now t opS hcb hlft hearly hcap
    have hrs := resetRateLimit_frame cb now
    have herr : checkCircuitState cfg (resetRateLimit cb now) now = .error () :=
      checkCircuitState_open_early cfg _ now t (hrs.1.trans hcb) (hrs.2.trans hlft)
        hearly
    unfold call
    rw [if_neg (not_le.mpr hcap)]
    rw [herr]
    exact ⟨rfl, rfl⟩
  · intro cb now t opS hcb hlft ht hlate hcap
    have hrs := resetRateLimit_frame cb now
    have hok := checkCircuitState_open_recover cfg (resetRateLimit cb now) now t
      (hrs.1.trans hcb) (hrs.2.trans hlft) ht hlate
    refine ⟨⟨_, hok, rfl⟩, ?_⟩
    unfold call
    rw [if_neg (not_le.mpr hcap)]
    rw [hok]
    cases opS <;> rfl
  · intro cb now hcb
    exact recordFailure_halfOpen cfg cb now hcb
  · intro cb hho hcs
    exact recordSuccesses_to_closed cfg cfg.success_threshold cb hho (by omega) hst

/-- The source defaults with `failure_threshold := 3` (as the claim fixes). -/
def cbCfgEx : CircuitBreakerConfig :=
  { failure_threshold := 3, recovery_timeout := 60, success_threshold := 3,
    max_calls_per_minute := 60 }

/-- A freshly closed breaker. -/
def cbClosedEx : CBState :=
  { state := .closed, consecutive_failures := 0, consecutive_successes := 0,
    last_failure_time := none, total_requests := 0, successful_requests := 0,
    failed_requests := 0, circuit_open_count := 0, calls_in_current_minute := 0,
    current_minute := 0 }

/-- A breaker opened at time 100 after three failures. -/
def cbOpenEx : CBState :=
  { state := .opened, consecutive_failures := 3, consecutive_successes := 0,
    last_failure_time := some 100, total_requests := 3, successful_requests := 0,
    failed_requests := 3, circuit_open_count := 1, calls_in_current_minute := 3,
    current_minute := 1 }

/-- A breaker probing recovery in the half-open state. -/
def cbHalfEx : CBState :=
  { state := .halfOpen, consecutive_failures := 0, consecutive_successes := 0,
    last_failure_time := some 100, total_requests := 4, successful_requests := 0,
    failed_requests := 3, circuit_open_count := 1, calls_in_current_minute := 0,
    current_minute := 2 }

/-- Witness for `circuit_breaker_transition_law` at the default config. -/
theorem circuit_breaker_transition_law_witness :
    (recordFailure cbCfgEx (recordFailure cbCfgEx cbClosedEx 1) 2).state = .closed ∧
      (recordFailure cbCfgEx
        (recordFailure cbCfgEx (recordFailure cbCfgEx cbClosedEx 1) 2) 3).state =
        .opened ∧
      (call cbCfgEx cbOpenEx 130 true).1 = .circuitOpen ∧
      (call cbCfgEx cbOpenEx 130 true).1.invoked = false ∧
      (call cbCfgEx cbOpenEx 200 false).1.invoked = true ∧
      (recordFailure cbCfgEx cbHalfEx 200).state = .opened ∧
      (recordSuccesses cbCfgEx 3 cbHalfEx).state = .closed := by
  have h := circuit_breaker_transition_law cbCfgEx rfl (by norm_num [cbCfgEx])
  have ha := h.1 cbClosedEx 1 2 3 rfl rfl
  have hb := h.2.1 cbOpenEx 130 100 true rfl rfl (by norm_num [cbCfgEx, cbOpenEx])
    (by norm_num [resetRateLimit, cbCfgEx, cbOpenEx])
  have hc := h.2.2.1 cbOpenEx 200 100 false rfl rfl (by norm_num)
    (by norm_num [cbCfgEx, cbOpenEx])
    (by norm_num [resetRateLimit, cbCfgEx, cbOpenEx])
  exact ⟨ha.1, ha.2, hb.1, hb.2, hc.2, h.2.2.2.1 cbHalfEx 200 rfl,
    h.2.2.2.2 cbHalfEx rfl rfl⟩

end CB

/-! ## Parallel executor (`parallel_executor.py`, class `ParallelExecutor`)

Deterministic run-to-completion embedding of the scheduling loop: a task
started by the coordinator finishes (and its completion callback runs)
before the next task is started, which is one legal interleaving of the
event loop. Consequently the running-task set is empty at every decision
point, so `_can_start_task`'s running-count comparisons reduce to
positivity checks on the configured ceilings, and `_check_system_resources`
(an OS memory probe that returns True when under the limit or unable to
check) is modelled as passing. `datetime.utcnow()` is modelled by a tick
counter `clock`. A task's `function` is modelled by `op : ℕ → Except String ℕ`,
mapping the retry count at invocation time to the raised error or returned
value; the ghost field `invocations` counts how many times it ran. -/

namespace PE

inductive TaskPriority where
  | critical
  | high
  | normal
  | low
deriving Repr, DecidableEq

/-- The `.value` of the priority enum (CRITICAL=1 ... LOW=4). -/
def TaskPriority.value : TaskPriority → ℕ
  | .critical => 1
  | .high => 2
  | .normal => 3
  | .low => 4

structure ScanTask where
  task_id : ℕ
  priority : TaskPriority
  dependencies : List ℕ
  op : ℕ → Except String ℕ
  cpu_intensive : Bool
  network_intensive : Bool
  started_at : Option ℕ
  completed_at : Option ℕ
  result : Option ℕ
  error : Option String
  retries : ℕ
  max_retries : ℕ
  invocations : ℕ

structure ResourceLimits where
  max_concurrent_tasks : ℕ
  max_cpu_intensive_tasks : ℕ
  max_network_tasks : ℕ
deriving Repr, DecidableEq

/-- The executor's mutable state. `completed_tasks` and `failed_tasks` are
the two terminal sets, `task_queue` the pending id list (duplicates appear
when a task is re-enqueued, as in the source). -/
structure ExecState where
  limits : ResourceLimits
  tasks : List ScanTask
  completed_tasks : List ℕ
  failed_tasks : List ℕ
  task_queue : List ℕ
  clock : ℕ
  start_time : Option ℕ
  end_time : Option ℕ

/-- `self.tasks[task_id]` lookup. -/
def findTask (tasks : List ScanTask) (id : ℕ) : Option ScanTask :=
  tasks.find? (fun t => t.task_id == id)

/-- Point update of the task with the given id. -/
def updateTask (tasks : List ScanTask) (id : ℕ) (f : ScanTask → ScanTask) :
    List ScanTask :=
  tasks.map (fun t => if t.task_id == id then f t else t)

/-- Priority value of a task id (0 if absent, unreachable in well-formed
states). -/
def prioOf (tasks : List ScanTask) (id : ℕ) : ℕ :=
  match findTask tasks id with
  | some t => t.priority.value
  | none => 0

/-- Stable insertion into a priority-sorted id list. -/
def insertSorted (tasks : List ScanTask) (id : ℕ) : List ℕ → List ℕ
  | [] => [id]
  | x :: xs =>
      if prioOf tasks id ≤ prioOf tasks x then id :: x :: xs
      else x :: insertSorted tasks id xs

/-- Stable sort by priority value (`list.sort(key=priority.value)`). -/
def sortQueue (tasks : List ScanTask) : List ℕ → List ℕ
  | [] => []
  | x :: xs => insertSorted tasks x (sortQueue tasks xs)

/-- `ParallelExecutor._has_pending_tasks` (no running set in the
run-to-completion model). -/
def hasPending (s : ExecState) : Bool :=
  !s.task_queue.isEmpty &&
    decide (s.completed_tasks.length + s.failed_tasks.length < s.tasks.length)

/-- Mark a task failed with reason "Dependency failed" (the dependency
branch of `_get_ready_tasks`). -/
def markFailed (s : ExecState) (id : ℕ) : ExecState :=
  { s with failed_tasks := s.failed_tasks ++ [id],
           tasks := updateTask s.tasks id
             (fun t => { t with error := some "Dependency failed" }) }

/-- The scan inside `_get_ready_tasks`: walk the queue, collect ready ids,
and mark tasks whose dependencies hit the failed set as failed. -/
def getReadyScan (s : ExecState) : List ℕ → List ℕ × ExecState
  | [] => ([], s)
  | id :: rest =>
      if s.completed_tasks.contains id || s.failed_tasks.contains id then
        getReadyScan s rest
      else
        match findTask s.tasks id with
        | none => getReadyScan s rest
        | some t =>
            if t.dependencies.all (fun d => s.completed_tasks.contains d) then
              let (r, s') := getReadyScan s rest
              (id :: r, s')
            else if t.dependencies.any (fun d => s.failed_tasks.contains d) then
              getReadyScan (markFailed s id) rest
            else getReadyScan s rest

/-- `ParallelExecutor._get_ready_tasks`: scan, then sort ready by priority. -/
def getReady (s : ExecState) : List ℕ × ExecState :=
  let (r, s') := getReadyScan s s.task_queue
  (sortQueue s'.tasks r, s')

/-- `ParallelExecutor._can_start_task` with zero running counts. -/
def canStart (s : ExecState) (t : ScanTask) : Bool :=
  decide (0 < s.limits.max_concurrent_tasks) &&
    (!t.cpu_intensive || decide (0 < s.limits.max_cpu_intensive_tasks)) &&
    (!t.network_intensive || decide (0 < s.limits.max_network_tasks))

/-- `ParallelExecutor._task_completed`: stamp `completed_at`; on success
store the result and add to `completed_tasks`; on failure bump `retries`
and either re-enqueue at the queue front with priority forced to HIGH and
cleared timestamps, or add to `failed_tasks`. -/
def taskCompleted (s : ExecState) (id : ℕ) (res : Except String ℕ) : ExecState :=
  let s := { s with
    tasks := updateTask s.tasks id (fun t => { t with completed_at := some s.clock }),
    clock := s.clock + 1 }
  match res with
  | .ok v =>
      { s with tasks := updateTask s.tasks id (fun t => { t with result := some v }),
               completed_tasks := s.completed_tasks ++ [id] }
  | .error e =>
      match findTask s.tasks id with
      | none => s
      | some t =>
          if t.retries + 1 ≤ t.max_retries then
            { s with
              tasks := updateTask s.tasks id (fun t =>
                { t with error := some e, retries := t.retries + 1,
                         priority := .high, started_at := none,
                         completed_at := none }),
              task_queue := id :: s.task_queue }
          else
            { s with
              tasks := updateTask s.tasks id (fun t =>
                { t with error := some e, retries := t.retries + 1 }),
              failed_tasks := s.failed_tasks ++ [id] }

/-- `_start_task` followed by the synchronous completion of the task:
stamp `started_at`, invoke the operation at the current retry count, and
apply `_task_completed` to its outcome. -/
def runTask (s : ExecState) (id : ℕ) : ExecState :=
  match findTask s.tasks id with
  | none => s
  | some t =>
      let s := { s with
        tasks := updateTask s.tasks id (fun t =>
          { t with started_at := some s.clock, invocations := t.invocations + 1 }),
        clock := s.clock + 1 }
      taskCompleted s id (t.op t.retries)

/-- Start the ready tasks in order (the `for task_id in ready_tasks` loop);
a task that no longer is pending is skipped, and a failing resource check
breaks out of the loop as in the source. -/
def runReady (s : ExecState) : List ℕ → ExecState
  | [] => s
  | id :: rest =>
      if s.completed_tasks.contains id || s.failed_tasks.contains id then
        runReady s rest
      else
        match findTask s.tasks id with
        | none => runReady s rest
        | some t =>
            if canStart s t then runReady (runTask s id) rest
            else s

/-- The main `while` loop of `execute_all`, driven by explicit fuel. `none`
means the fuel ran out (shown impossible for the fuel chosen below). -/
def execLoop : ℕ → ExecState → Option ExecState
  | 0, _ => none
  | fuel + 1, s =>
      if hasPending s then
        let (ready, s') := getReady s
        if ready.isEmpty then some s'
        else execLoop fuel (runReady s' ready)
      else some s

/-- Work remaining for one task: zero once terminal, otherwise its retry
budget plus one (so entering a terminal set always pays at least one). -/
def contrib (comp fail : List ℕ) (t : ScanTask) : ℕ :=
  if t.task_id ∈ comp ∨ t.task_id ∈ fail then 0
  else t.max_retries + 1 - t.retries + 1

/-- Work remaining over all tasks: the loop's termination measure. -/
def pendingBudget (s : ExecState) : ℕ :=
  (s.tasks.map (contrib s.completed_tasks s.failed_tasks)).sum

/-- Fuel that always suffices for `execLoop`. -/
def fuelFor (s : ExecState) : ℕ :=
  (s.tasks.map (fun t => t.max_retries + 2)).sum + 1

def resultOf (s : ExecState) (id : ℕ) : Option ℕ :=
  match findTask s.tasks id with
  | some t => t.result
  | none => none

def errorOf (s : ExecState) (id : ℕ) : Option String :=
  match findTask s.tasks id with
  | some t => t.error
  | none => none

structure ExecResult where
  status : String
  results : List (ℕ × Option ℕ)
  errors : List (ℕ × Option String)
deriving Repr, DecidableEq

/-- `ParallelExecutor.execute_all`. Empty task set: immediate `no_tasks`
return before the metrics are touched. Otherwise: stamp `start_time`, run
the loop, stamp `end_time` and assemble the result/error maps. -/
def executeAll (s : ExecState) : Option (ExecResult × ExecState) :=
  if s.tasks.isEmpty then
    some ({ status := "no_tasks", results := [], errors := [] }, s)
  else
    let s := { s with start_time := some s.clock, clock := s.clock + 1 }
    match execLoop (fuelFor s) s with
    | none => none
    | some s1 =>
        let s2 := { s1 with end_time := some s1.clock, clock := s1.clock + 1 }
        some ({ status := "completed",
                results := s2.completed_tasks.map (fun id => (id, resultOf s2 id)),
                errors := s2.failed_tasks.map (fun id => (id, errorOf s2 id)) }, s2)

/-- C10. Calling `execute_all` with no submitted tasks returns immediately
with status "no_tasks" and empty result map, leaving the state — including
the `start_time`/`end_time` metrics and every task counter — untouched. -/
theorem executeAll_no_tasks (s : ExecState) (h : s.tasks = []) :
    executeAll s = some ({ status := "no_tasks", results := [], errors := [] }, s) := by
  unfold executeAll
  rw [h]
  rfl

/-- A fresh executor with no tasks. -/
def emptyExecEx : ExecState :=
  { limits := { max_concurrent_tasks := 6, max_cpu_intensive_tasks := 2,
                max_network_tasks := 10 },
    tasks := [], completed_tasks := [], failed_tasks := [], task_queue := [],
    clock := 0, start_time := none, end_time := none }

/-- Witness for `executeAll_no_tasks`. -/
theorem executeAll_no_tasks_witness :
    executeAll emptyExecEx =
      some ({ status := "no_tasks", results := [], errors := [] }, emptyExecEx) :=
  executeAll_no_tasks emptyExecEx rfl

/-- A low-priority task that has just been started and is about to fail. -/
def lowTaskEx : ScanTask :=
  { task_id := 1, priority := .low, dependencies := [],
    op := fun _ => .error "boom", cpu_intensive := false,
    network_intensive := true, started_at := some 0, completed_at := none,
    result := none, error := none, retries := 0, max_retries := 2,
    invocations := 1 }

def lowExecEx : ExecState :=
  { limits := { max_concurrent_tasks := 6, max_cpu_intensive_tasks := 2,
                max_network_tasks := 10 },
    tasks := [lowTaskEx], completed_tasks := [], failed_tasks := [],
    task_queue := [1], clock := 1, start_time := some 0, end_time := none }

/-- C3 counterexample: a failing Low-priority task with retries remaining is
re-enqueued with priority HIGH, not the claimed next tier NORMAL. -/
theorem retry_priority_is_high_not_next_tier :
    (findTask (taskCompleted lowExecEx 1 (.error "boom")).tasks 1).map
        ScanTask.priority = some .high ∧
      TaskPriority.high ≠ TaskPriority.normal := by
  exact ⟨rfl, by decide⟩

theorem findTask_updateTask (tasks : List ScanTask) (id : ℕ)
    (f : ScanTask → ScanTask) (hf : ∀ u, (f u).task_id = u.task_id)
    (t : ScanTask) (h : findTask tasks id = some t) :
    findTask (updateTask tasks id f) id = some (f t) := by
  induction tasks with
  | nil => cases h
  | cons x xs ih =>
      unfold findTask List.find? at h
      unfold findTask updateTask List.map List.find?
      by_cases hx : (x.task_id == id) = true
      · rw [hx] at h
        rw [if_pos hx]
        have : ((f x).task_id == id) = true := by
          rw [hf x]; exact hx
        rw [this]
        cases h
        rfl
      · rw [Bool.not_eq_true] at hx
        rw [hx] at h
        rw [if_neg (by rw [hx]; exact Bool.false_ne_true)]
        rw [hx]
        exact ih h

/-- C3 as amended. A task that fails with `retries + 1 ≤ max_retries` is
re-enqueued at the front of the pending queue with its priority set to HIGH
unconditionally — a Low task jumps two tiers to High and a Critical task is
demoted to High — with `started_at`/`completed_at` cleared, `retries`
incremented and the error recorded; it joins neither terminal set. -/
theorem failed_task_requeued_high (s : ExecState) (id : ℕ) (e : String)
    (t : ScanTask) (hfind : findTask s.tasks id = some t)
    (hretry : t.retries + 1 ≤ t.max_retries) :
    findTask (taskCompleted s id (.error e)).tasks id =
        some { t with error := some e, retries := t.retries + 1,
                      priority := .high, started_at := none,
                      completed_at := none } ∧
      (taskCompleted s id (.error e)).task_queue = id :: s.task_queue ∧
      (taskCompleted s id (.error e)).failed_tasks = s.failed_tasks ∧
      (taskCompleted s id (.error e)).completed_tasks = s.completed_tasks := by
  unfold taskCompleted
  dsimp only
  have h1 := findTask_updateTask s.tasks id
    (fun u => { u with completed_at := some s.clock }) (fun _ => rfl) t hfind
  rw [h1]
  dsimp only
  rw [if_pos hretry]
  refine ⟨?_, rfl, rfl, rfl⟩
  have h2 := findTask_updateTask (updateTask s.tasks id
      (fun u => { u with completed_at := some s.clock })) id
    (fun u => { u with error := some e, retries := u.retries + 1,
                       priority := TaskPriority.high, started_at := none,
                       completed_at := none }) (fun _ => rfl) _ h1
  rw [h2]

/-- Witness for `failed_task_requeued_high` at the Low-priority example. -/
theorem failed_task_requeued_high_witness :
    findTask (taskCompleted lowExecEx 1 (.error "boom")).tasks 1 =
        some { lowTaskEx with error := some "boom", retries := 1,
                              priority := .high, started_at := none,
                              completed_at := none } ∧
      (taskCompleted lowExecEx 1 (.error "boom")).task_queue = 1 :: [1] :=
  ⟨(failed_task_requeued_high lowExecEx 1 "boom" lowTaskEx rfl (by decide)).1,
   (failed_task_requeued_high lowExecEx 1 "boom" lowTaskEx rfl (by decide)).2.1⟩

/-- A task whose operation raises `msgs n` on its (n+1)-st invocation. -/
def failTask (msgs : ℕ → String) : ScanTask :=
  { task_id := 1, priority := .normal, dependencies := [],
    op := fun n => .error (msgs n), cpu_intensive := false,
    network_intensive := false, started_at := none, completed_at := none,
    result := none, error := none, retries := 0, max_retries := 2,
    invocations := 0 }

def failExec (msgs : ℕ → String) : ExecState :=
  { limits := { max_concurrent_tasks := 6, max_cpu_intensive_tasks := 2,
                max_network_tasks := 10 },
    tasks := [failTask msgs], completed_tasks := [], failed_tasks := [],
    task_queue := [1], clock := 0, start_time := none, end_time := none }

/-- Decomposition of `executeAll` on a nonempty task set through an
explicit loop evaluation. -/
theorem executeAll_eq_of_loop (s sL : ExecState) (hne : s.tasks.isEmpty = false)
    (hloop : execLoop
        (fuelFor { s with start_time := some s.clock, clock := s.clock + 1 })
        { s with start_time := some s.clock, clock := s.clock + 1 } = some sL) :
    executeAll s = some
      ({ status := "completed",
         results := sL.completed_tasks.map (fun id => (id, resultOf sL id)),
         errors := sL.failed_tasks.map (fun id => (id, errorOf sL id)) },
       { sL with end_time := some sL.clock, clock := sL.clock + 1 }) := by
  unfold executeAll
  simp only [hne, Bool.false_eq_true, if_false]
  rw [hloop]
  rfl

/-- The single-failing-task state after the first loop iteration: one
invocation recorded, one retry consumed, re-enqueued at the queue front. -/
def failExecA (msgs : ℕ → String) : ExecState :=
  { limits := { max_concurrent_tasks := 6, max_cpu_intensive_tasks := 2,
                max_network_tasks := 10 },
    tasks := [{ task_id := 1, priority := .high, dependencies := [],
                op := fun n => .error (msgs n), cpu_intensive := false,
                network_intensive := false, started_at := none,
                completed_at := none, result := none, error := some (msgs 0),
                retries := 1, max_retries := 2, invocations := 1 }],
    completed_tasks := [], failed_tasks := [], task_queue := [1, 1],
    clock := 3, start_time := some 0, end_time := none }

/-- The state after the second loop iteration: the task ran its second and
third attempts and entered the failed set. -/
def failExecB (msgs : ℕ → String) : ExecState :=
  { limits := { max_concurrent_tasks := 6, max_cpu_intensive_tasks := 2,
                max_network_tasks := 10 },
    tasks := [{ task_id := 1, priority := .high, dependencies := [],
                op := fun n => .error (msgs n), cpu_intensive := false,
                network_intensive := false, started_at := some 5,
                completed_at := some 6, result := none, error := some (msgs 2),
                retries := 3, max_retries := 2, invocations := 3 }],
    completed_tasks := [], failed_tasks := [1], task_queue := [1, 1, 1],
    clock := 7, start_time := some 0, end_time := none }

/-- `failExec` with the `start_time` metric stamped by `executeAll`. -/
def failExecS (msgs : ℕ → String) : ExecState :=
  { limits := { max_concurrent_tasks := 6, max_cpu_intensive_tasks := 2,
                max_network_tasks := 10 },
    tasks := [failTask msgs], completed_tasks := [], failed_tasks := [],
    task_queue := [1], clock := 1, start_time := some 0, end_time := none }

/-- The final state returned by `executeAll` on `failExec`. -/
def failExecF (msgs : ℕ → String) : ExecState :=
  { limits := { max_concurrent_tasks := 6, max_cpu_intensive_tasks := 2,
                max_network_tasks := 10 },
    tasks := [{ task_id := 1, priority := .high, dependencies := [],
                op := fun n => .error (msgs n), cpu_intensive := false,
                network_intensive := false, started_at := some 5,
                completed_at := some 6, result := none, error := some (msgs 2),
                retries := 3, max_retries := 2, invocations := 3 }],
    completed_tasks := [], failed_tasks := [1], task_queue := [1, 1, 1],
    clock := 8, start_time := some 0, end_time := some 7 }

theorem execLoop_succ_step (fuel : ℕ) (s s' s2 : ExecState) (r : List ℕ)
    (hp : hasPending s = true) (hg : getReady s = (r, s'))
    (hne : r.isEmpty = false) (hrun : runReady s' r = s2) :
    execLoop (fuel + 1) s = execLoop fuel s2 := by
  conv_lhs => rw [execLoop.eq_def]
  rw [Nat.add_one]
  dsimp only
  simp only [hp, hg, hne, hrun, Bool.false_eq_true, if_false, if_true]

theorem execLoop_succ_stop (fuel : ℕ) (s s' : ExecState) (r : List ℕ)
    (hp : hasPending s = true) (hg : getReady s = (r, s'))
    (he : r.isEmpty = true) :
    execLoop (fuel + 1) s = some s' := by
  conv_lhs => rw [execLoop.eq_def]
  rw [Nat.add_one]
  dsimp only
  simp only [hp, hg, he, if_true]

theorem execLoop_succ_done (fuel : ℕ) (s : ExecState)
    (hp : hasPending s = false) :
    execLoop (fuel + 1) s = some s := by
  conv_lhs => rw [execLoop.eq_def]
  rw [Nat.add_one]
  dsimp only
  simp only [hp, Bool.false_eq_true, if_false]

theorem failExec_eval (msgs : ℕ → String) :
    executeAll (failExec msgs) = some
      ({ status := "completed", results := [], errors := [(1, some (msgs 2))] },
       failExecF msgs) := by
  have h1 : execLoop 5 (failExecS msgs) = execLoop 4 (failExecA msgs) :=
    execLoop_succ_step 4 (failExecS msgs) (failExecS msgs) (failExecA msgs) [1]
      rfl rfl rfl rfl
  have h2 : execLoop 4 (failExecA msgs) = execLoop 3 (failExecB msgs) :=
    execLoop_succ_step 3 (failExecA msgs) (failExecA msgs) (failExecB msgs) [1, 1]
      rfl rfl rfl rfl
  have h3 : execLoop 3 (failExecB msgs) = some (failExecB msgs) :=
    execLoop_succ_done 2 (failExecB msgs) rfl
  have h := executeAll_eq_of_loop (failExec msgs) (failExecB msgs) rfl
    (h1.trans (h2.trans h3))
  rw [h]
  rfl

/-- C4 counterexample: an always-failing task with `max_retries = 2` is
invoked 3 times, not the claimed 2 — the code retries while the incremented
counter satisfies `retries ≤ max_retries`, giving the initial attempt plus
two retries. -/
theorem retry_budget_two_runs_three_times :
    (executeAll (failExec (fun _ => "boom"))).map
        (fun p => (findTask p.2.tasks 1).map ScanTask.invocations) =
      some (some 3) ∧ (3:ℕ) ≠ 2 := by
  rw [failExec_eval (fun _ => "boom")]
  exact ⟨rfl, by decide⟩

/-- C4 as amended. A task with `max_retries = 2` whose operation fails on
every invocation is invoked exactly 3 times (the initial attempt plus
`max_retries` retries), ends in the failed set with its last error, and is
never attempted a fourth time; it never reaches the results map. -/
theorem retry_exhaustion_three_attempts (msgs : ℕ → String) :
    (executeAll (failExec msgs)).map
        (fun p => (findTask p.2.tasks 1).map ScanTask.invocations) =
      some (some 3) ∧
    (executeAll (failExec msgs)).map (fun p => p.2.failed_tasks) = some [1] ∧
    (executeAll (failExec msgs)).map (fun p => p.2.completed_tasks) = some [] ∧
    (executeAll (failExec msgs)).map (fun p => p.1.errors) =
      some [(1, some (msgs 2))] ∧
    (executeAll (failExec msgs)).map (fun p => p.1.results) = some [] := by
  rw [failExec_eval msgs]
  exact ⟨rfl, rfl, rfl, rfl, rfl⟩

/-! ### Termination and cycle analysis of the scheduling loop -/

theorem findTask_mem {tasks : List ScanTask} {id : ℕ} {t : ScanTask}
    (h : findTask tasks id = some t) : t ∈ tasks ∧ t.task_id = id := by
  induction tasks with
  | nil => cases h
  | cons a as ih =>
      unfold findTask at h
      cases hb : (a.task_id == id) with
      | true =>
          simp only [List.find?_cons, hb] at h
          obtain rfl : a = t := by simpa using h
          exact ⟨List.mem_cons_self _ _, beq_iff_eq.mp hb⟩
      | false =>
          simp only [List.find?_cons, hb] at h
          obtain ⟨hm, hid⟩ := ih h
          exact ⟨List.mem_cons_of_mem _ hm, hid⟩

/-- An id-preserving point update leaves lookups of other ids unchanged. -/
theorem findTask_updateTask_ne (tasks : List ScanTask) (x id : ℕ)
    (f : ScanTask → ScanTask) (hf : ∀ u, (f u).task_id = u.task_id)
    (hne : id ≠ x) :
    findTask (updateTask tasks x f) id = findTask tasks id := by
  unfold findTask updateTask
  rw [List.find?_map]
  have hfun : ((fun t : ScanTask => t.task_id == id) ∘
      (fun t => if t.task_id == x then f t else t)) =
      fun t : ScanTask => t.task_id == id := by
    funext t
    by_cases h : (t.task_id == x) = true
    · simp only [Function.comp_apply, if_pos h, hf]
    · simp only [Function.comp_apply, if_neg h]
  rw [hfun]
  cases hft : tasks.find? (fun t => t.task_id == id) with
  | none => rfl
  | some t =>
      have ht := (findTask_mem (show findTask tasks id = some t from hft)).2
      have hx : (t.task_id == x) = false := by
        rw [ht]; exact beq_eq_false_iff_ne.mpr hne
      show some (if (t.task_id == x) = true then f t else t) = some t
      rw [hx]
      simp

theorem mem_insertSorted (tasks : List ScanTask) (id a : ℕ) (l : List ℕ) :
    a ∈ insertSorted tasks id l ↔ a = id ∨ a ∈ l := by
  induction l with
  | nil => simp [insertSorted]
  | cons x xs ih =>
      unfold insertSorted
      split
      · simp [List.mem_cons]
      · simp only [List.mem_cons, ih]
        tauto

theorem mem_sortQueue (tasks : List ScanTask) (a : ℕ) (l : List ℕ) :
    a ∈ sortQueue tasks l ↔ a ∈ l := by
  induction l with
  | nil => simp [sortQueue]
  | cons x xs ih =>
      unfold sortQueue
      rw [mem_insertSorted, ih]
      simp [List.mem_cons]

/-- One-step equation of the queue scan, with the pair destructuring of the
ready branch spelled through projections. -/
theorem getReadyScan_cons (s : ExecState) (id : ℕ) (rest : List ℕ) :
    getReadyScan s (id :: rest) =
      if s.completed_tasks.contains id || s.failed_tasks.contains id then
        getReadyScan s rest
      else
        match findTask s.tasks id with
        | none => getReadyScan s rest
        | some t =>
            if t.dependencies.all (fun d => s.completed_tasks.contains d) then
              (id :: (getReadyScan s rest).1, (getReadyScan s rest).2)
            else if t.dependencies.any (fun d => s.failed_tasks.contains d) then
              getReadyScan (markFailed s id) rest
            else getReadyScan s rest := by
  simp only [getReadyScan]

theorem contrib_eq_of_fields (comp fail : List ℕ) (t u : ScanTask)
    (h1 : u.task_id = t.task_id) (h2 : u.retries = t.retries)
    (h3 : u.max_retries = t.max_retries) :
    contrib comp fail u = contrib comp fail t := by
  unfold contrib
  rw [h1, h2, h3]

theorem contrib_mono (comp fail comp' fail' : List ℕ) (t : ScanTask)
    (hc : ∀ a, a ∈ comp → a ∈ comp') (hf : ∀ a, a ∈ fail → a ∈ fail') :
    contrib comp' fail' t ≤ contrib comp fail t := by
  unfold contrib
  by_cases h : t.task_id ∈ comp ∨ t.task_id ∈ fail
  · rw [if_pos h, if_pos (h.imp (hc _) (hf _))]
  · rw [if_neg h]
    split
    · exact Nat.zero_le _
    · exact le_refl _

theorem contrib_le_bound (comp fail : List ℕ) (t : ScanTask) :
    contrib comp fail t ≤ t.max_retries + 2 := by
  unfold contrib
  split
  · exact Nat.zero_le _
  · omega

theorem updateTask_budget_le (tasks : List ScanTask) (comp fail comp' fail' : List ℕ)
    (x : ℕ) (f : ScanTask → ScanTask)
    (hle : ∀ t ∈ tasks,
      contrib comp' fail' (if (t.task_id == x) = true then f t else t) ≤
        contrib comp fail t) :
    ((updateTask tasks x f).map (contrib comp' fail')).sum ≤
      (tasks.map (contrib comp fail)).sum := by
  unfold updateTask
  rw [List.map_map]
  exact List.sum_le_sum hle

theorem updateTask_budget_lt (tasks : List ScanTask) (comp fail comp' fail' : List ℕ)
    (x : ℕ) (f : ScanTask → ScanTask)
    (hle : ∀ t ∈ tasks,
      contrib comp' fail' (if (t.task_id == x) = true then f t else t) ≤
        contrib comp fail t)
    (hlt : ∃ t ∈ tasks,
      contrib comp' fail' (if (t.task_id == x) = true then f t else t) <
        contrib comp fail t) :
    ((updateTask tasks x f).map (contrib comp' fail')).sum <
      (tasks.map (contrib comp fail)).sum := by
  unfold updateTask
  rw [List.map_map]
  exact List.sum_lt_sum _ _ hle hlt

theorem updateTask_comp (tasks : List ScanTask) (x : ℕ) (f g : ScanTask → ScanTask)
    (hf : ∀ u, (f u).task_id = u.task_id) :
    updateTask (updateTask tasks x f) x g = updateTask tasks x (fun t => g (f t)) := by
  unfold updateTask
  rw [List.map_map]
  apply List.map_congr_left
  intro a _
  by_cases h : (a.task_id == x) = true
  · simp only [Function.comp_apply, if_pos h]
    rw [if_pos (by rw [hf a]; exact h)]
  · simp only [Function.comp_apply, if_neg h]

theorem canStart_of_pos (s : ExecState) (t : ScanTask)
    (h1 : 0 < s.limits.max_concurrent_tasks)
    (h2 : 0 < s.limits.max_cpu_intensive_tasks)
    (h3 : 0 < s.limits.max_network_tasks) :
    canStart s t = true := by
  unfold canStart
  simp [h1, h2, h3]

theorem contrib_zero_of_mem (comp fail : List ℕ) (t : ScanTask)
    (h : t.task_id ∈ comp ∨ t.task_id ∈ fail) : contrib comp fail t = 0 := by
  unfold contrib
  rw [if_pos h]

theorem contrib_pos_of_not_mem (comp fail : List ℕ) (t : ScanTask)
    (h : ¬(t.task_id ∈ comp ∨ t.task_id ∈ fail)) : 0 < contrib comp fail t := by
  unfold contrib
  rw [if_neg h]
  omega

theorem updateTask_budget_eq (tasks : List ScanTask) (comp fail : List ℕ) (x : ℕ)
    (f : ScanTask → ScanTask)
    (hf : ∀ u, (f u).task_id = u.task_id ∧ (f u).retries = u.retries ∧
      (f u).max_retries = u.max_retries) :
    ((updateTask tasks x f).map (contrib comp fail)).sum =
      (tasks.map (contrib comp fail)).sum := by
  unfold updateTask
  rw [List.map_map]
  apply congrArg
  apply List.map_congr_left
  intro a _
  by_cases h : (a.task_id == x) = true
  · simp only [Function.comp_apply, if_pos h]
    exact contrib_eq_of_fields _ _ _ _ (hf _).1 (hf _).2.1 (hf _).2.2
  · simp only [Function.comp_apply, if_neg h]

theorem taskCompleted_budget_lt (s : ExecState) (id : ℕ) (res : Except String ℕ)
    (t : ScanTask) (hfind : findTask s.tasks id = some t)
    (hid : ¬(id ∈ s.completed_tasks ∨ id ∈ s.failed_tasks)) :
    pendingBudget (taskCompleted s id res) < pendingBudget s := by
  obtain ⟨htm, htid⟩ := findTask_mem hfind
  have hpend : ¬(t.task_id ∈ s.completed_tasks ∨ t.task_id ∈ s.failed_tasks) := by
    rw [htid]; exact hid
  unfold taskCompleted
  dsimp only
  cases res with
  | ok v =>
      unfold pendingBudget
      dsimp only
      rw [updateTask_comp s.tasks id (fun t => { t with completed_at := some s.clock })
        (fun t => { t with result := some v }) (fun u => rfl)]
      apply updateTask_budget_lt
      · intro x hx
        by_cases hxid : (x.task_id == id) = true
        · rw [if_pos hxid]
          refine le_trans (le_of_eq (contrib_eq_of_fields _ _ x _ rfl rfl rfl)) ?_
          have hmem : x.task_id ∈ s.completed_tasks ++ [id] := by
            rw [beq_iff_eq.mp hxid]
            exact List.mem_append_right _ (by simp)
          rw [contrib_zero_of_mem _ _ _ (Or.inl hmem)]
          exact Nat.zero_le _
        · rw [if_neg hxid]
          exact contrib_mono _ _ _ _ _
            (fun a ha => List.mem_append_left _ ha) (fun a ha => ha)
      · refine ⟨t, htm, ?_⟩
        rw [if_pos (by rw [htid]; exact beq_iff_eq.mpr rfl)]
        refine lt_of_le_of_lt (le_of_eq (contrib_zero_of_mem _ _ _ (Or.inl ?_)))
          (contrib_pos_of_not_mem _ _ _ hpend)
        show t.task_id ∈ s.completed_tasks ++ [id]
        rw [htid]
        exact List.mem_append_right _ (by simp)
  | error e =>
      dsimp only
      rw [findTask_updateTask s.tasks id
        (fun t => { t with completed_at := some s.clock }) (fun u => rfl) t hfind]
      dsimp only
      split
      · rename_i hretry
        unfold pendingBudget
        dsimp only
        rw [updateTask_comp s.tasks id (fun t => { t with completed_at := some s.clock })
          (fun t => { t with error := some e, retries := t.retries + 1, priority := TaskPriority.high, started_at := none, completed_at := none })
          (fun u => rfl)]
        apply updateTask_budget_lt
        · intro x hx
          by_cases hxid : (x.task_id == id) = true
          · rw [if_pos hxid]
            unfold contrib
            dsimp only
            by_cases hm : x.task_id ∈ s.completed_tasks ∨ x.task_id ∈ s.failed_tasks
            · rw [if_pos hm, if_pos hm]
            · rw [if_neg hm, if_neg hm]
              omega
          · rw [if_neg hxid]
        · refine ⟨t, htm, ?_⟩
          rw [if_pos (by rw [htid]; exact beq_iff_eq.mpr rfl)]
          have hr : t.retries + 1 ≤ t.max_retries := hretry
          unfold contrib
          dsimp only
          rw [if_neg hpend, if_neg hpend]
          omega
      · unfold pendingBudget
        dsimp only
        rw [updateTask_comp s.tasks id (fun t => { t with completed_at := some s.clock })
          (fun t => { t with error := some e, retries := t.retries + 1 })
          (fun u => rfl)]
        apply updateTask_budget_lt
        · intro x hx
          by_cases hxid : (x.task_id == id) = true
          · rw [if_pos hxid]
            refine le_trans (le_of_eq (contrib_zero_of_mem _ _ _ (Or.inr ?_)))
              (Nat.zero_le _)
            show x.task_id ∈ s.failed_tasks ++ [id]
            rw [beq_iff_eq.mp hxid]
            exact List.mem_append_right _ (by simp)
          · rw [if_neg hxid]
            exact contrib_mono _ _ _ _ _
              (fun a ha => ha) (fun a ha => List.mem_append_left _ ha)
        · refine ⟨t, htm, ?_⟩
          rw [if_pos (by rw [htid]; exact beq_iff_eq.mpr rfl)]
          refine lt_of_le_of_lt (le_of_eq (contrib_zero_of_mem _ _ _ (Or.inr ?_)))
            (contrib_pos_of_not_mem _ _ _ hpend)
          show t.task_id ∈ s.failed_tasks ++ [id]
          rw [htid]
          exact List.mem_append_right _ (by simp)

theorem taskCompleted_budget_le (s : ExecState) (id : ℕ) (res : Except String ℕ) :
    pendingBudget (taskCompleted s id res) ≤ pendingBudget s := by
  unfold taskCompleted
  dsimp only
  cases res with
  | ok v =>
      unfold pendingBudget
      dsimp only
      rw [updateTask_comp s.tasks id (fun t => { t with completed_at := some s.clock })
        (fun t => { t with result := some v }) (fun u => rfl)]
      apply updateTask_budget_le
      intro x hx
      by_cases hxid : (x.task_id == id) = true
      · rw [if_pos hxid]
        refine le_trans (le_of_eq (contrib_zero_of_mem _ _ _ (Or.inl ?_)))
          (Nat.zero_le _)
        show x.task_id ∈ s.completed_tasks ++ [id]
        rw [beq_iff_eq.mp hxid]
        exact List.mem_append_right _ (by simp)
      · rw [if_neg hxid]
        exact contrib_mono _ _ _ _ _
          (fun a ha => List.mem_append_left _ ha) (fun a ha => ha)
  | error e =>
      dsimp only
      cases hft : findTask (updateTask s.tasks id
          (fun t => { t with completed_at := some s.clock })) id with
      | none =>
          dsimp only
          unfold pendingBudget
          dsimp only
          exact le_of_eq (updateTask_budget_eq _ _ _ _ _ (fun u => ⟨rfl, rfl, rfl⟩))
      | some t1 =>
          dsimp only
          split
          · unfold pendingBudget
            dsimp only
            rw [updateTask_comp s.tasks id (fun t => { t with completed_at := some s.clock })
              (fun t => { t with error := some e, retries := t.retries + 1, priority := TaskPriority.high, started_at := none, completed_at := none })
              (fun u => rfl)]
            apply updateTask_budget_le
            intro x hx
            by_cases hxid : (x.task_id == id) = true
            · rw [if_pos hxid]
              unfold contrib
              dsimp only
              by_cases hm : x.task_id ∈ s.completed_tasks ∨ x.task_id ∈ s.failed_tasks
              · rw [if_pos hm, if_pos hm]
              · rw [if_neg hm, if_neg hm]
                omega
            · rw [if_neg hxid]
          · unfold pendingBudget
            dsimp only
            rw [updateTask_comp s.tasks id (fun t => { t with completed_at := some s.clock })
              (fun t => { t with error := some e, retries := t.retries + 1 })
              (fun u => rfl)]
            apply updateTask_budget_le
            intro x hx
            by_cases hxid : (x.task_id == id) = true
            · rw [if_pos hxid]
              refine le_trans (le_of_eq (contrib_zero_of_mem _ _ _ (Or.inr ?_)))
                (Nat.zero_le _)
              show x.task_id ∈ s.failed_tasks ++ [id]
              rw [beq_iff_eq.mp hxid]
              exact List.mem_append_right _ (by simp)
            · rw [if_neg hxid]
              exact contrib_mono _ _ _ _ _
                (fun a ha => ha) (fun a ha => List.mem_append_left _ ha)

theorem runTask_budget_lt (s : ExecState) (id : ℕ) (t : ScanTask)
    (hfind : findTask s.tasks id = some t)
    (hid : ¬(id ∈ s.completed_tasks ∨ id ∈ s.failed_tasks)) :
    pendingBudget (runTask s id) < pendingBudget s := by
  unfold runTask
  rw [hfind]
  dsimp only
  refine lt_of_lt_of_le
    (taskCompleted_budget_lt _ id (t.op t.retries) _
      (findTask_updateTask s.tasks id (fun u => { u with started_at := some s.clock, invocations := u.invocations + 1 }) (fun u => rfl) t hfind) hid) ?_
  unfold pendingBudget
  dsimp only
  exact le_of_eq (updateTask_budget_eq _ _ _ _ _ (fun u => ⟨rfl, rfl, rfl⟩))

theorem runTask_budget_le (s : ExecState) (id : ℕ) :
    pendingBudget (runTask s id) ≤ pendingBudget s := by
  unfold runTask
  cases hfind : findTask s.tasks id with
  | none => exact le_refl _
  | some t =>
      dsimp only
      refine le_trans (taskCompleted_budget_le _ id (t.op t.retries)) (le_of_eq ?_)
      unfold pendingBudget
      dsimp only
      exact updateTask_budget_eq _ _ _ _ _ (fun u => ⟨rfl, rfl, rfl⟩)

theorem markFailed_budget_le (s : ExecState) (id : ℕ) :
    pendingBudget (markFailed s id) ≤ pendingBudget s := by
  unfold markFailed pendingBudget
  dsimp only
  apply updateTask_budget_le
  intro x hx
  by_cases hxid : (x.task_id == id) = true
  · rw [if_pos hxid]
    refine le_trans (le_of_eq (contrib_eq_of_fields _ _ x _ rfl rfl rfl)) ?_
    exact contrib_mono _ _ _ _ _
      (fun a ha => ha) (fun a ha => List.mem_append_left _ ha)
  · rw [if_neg hxid]
    exact contrib_mono _ _ _ _ _
      (fun a ha => ha) (fun a ha => List.mem_append_left _ ha)

theorem taskCompleted_limits (s : ExecState) (id : ℕ) (res : Except String ℕ) :
    (taskCompleted s id res).limits = s.limits := by
  unfold taskCompleted
  dsimp only
  cases res with
  | ok v => rfl
  | error e =>
      dsimp only
      cases hft : findTask (updateTask s.tasks id
          (fun t => { t with completed_at := some s.clock })) id with
      | none => rfl
      | some t1 =>
          dsimp only
          split <;> rfl

theorem runTask_limits (s : ExecState) (id : ℕ) :
    (runTask s id).limits = s.limits := by
  unfold runTask
  cases hfind : findTask s.tasks id with
  | none => rfl
  | some t =>
      dsimp only
      exact (taskCompleted_limits _ id (t.op t.retries)).trans rfl

theorem runReady_limits (l : List ℕ) : ∀ s : ExecState,
    (runReady s l).limits = s.limits := by
  induction l with
  | nil => intro s; rfl
  | cons id rest ih =>
      intro s
      unfold runReady
      split
      · exact ih s
      · split
        · exact ih s
        · split
          · exact (ih (runTask s id)).trans (runTask_limits s id)
          · rfl

theorem runReady_budget_le (l : List ℕ) : ∀ s : ExecState,
    pendingBudget (runReady s l) ≤ pendingBudget s := by
  induction l with
  | nil => intro s; exact le_refl _
  | cons id rest ih =>
      intro s
      unfold runReady
      split
      · exact ih s
      · split
        · exact ih s
        · split
          · exact le_trans (ih (runTask s id)) (runTask_budget_le s id)
          · exact le_refl _

theorem getReadyScan_limits (q : List ℕ) : ∀ s : ExecState,
    (getReadyScan s q).2.limits = s.limits := by
  induction q with
  | nil => intro s; rfl
  | cons id rest ih =>
      intro s
      rw [getReadyScan_cons]
      split
      · exact ih s
      · split
        · exact ih s
        · split
          · exact ih s
          · split
            · exact (ih (markFailed s id)).trans rfl
            · exact ih s

theorem getReadyScan_completed (q : List ℕ) : ∀ s : ExecState,
    (getReadyScan s q).2.completed_tasks = s.completed_tasks := by
  induction q with
  | nil => intro s; rfl
  | cons id rest ih =>
      intro s
      rw [getReadyScan_cons]
      split
      · exact ih s
      · split
        · exact ih s
        · split
          · exact ih s
          · split
            · exact (ih (markFailed s id)).trans rfl
            · exact ih s

theorem getReadyScan_budget_le (q : List ℕ) : ∀ s : ExecState,
    pendingBudget (getReadyScan s q).2 ≤ pendingBudget s := by
  induction q with
  | nil => intro s; exact le_refl _
  | cons id rest ih =>
      intro s
      rw [getReadyScan_cons]
      split
      · exact ih s
      · split
        · exact ih s
        · split
          · exact ih s
          · split
            · exact le_trans (ih (markFailed s id)) (markFailed_budget_le s id)
            · exact ih s

theorem contains_eq_mem (l : List ℕ) (a : ℕ) : l.contains a = true ↔ a ∈ l :=
  List.elem_iff

/-- The initial `self.metrics["start_time"]` stamp of `execute_all`. -/
def startStamp (s : ExecState) : ExecState :=
  { s with start_time := some s.clock, clock := s.clock + 1 }

/-- A closed deadlocked id set: every task in it exists, has at least one
dependency, and all its dependencies stay inside the set (a dependency
cycle is the archetype). -/
def SClosed (tasks : List ScanTask) (S : List ℕ) : Prop :=
  ∀ id ∈ S, ∃ t, findTask tasks id = some t ∧ t.dependencies ≠ [] ∧
    ∀ d ∈ t.dependencies, d ∈ S

/-- Invariant: the set is closed and none of its tasks has reached a
terminal set. -/
def SFree (s : ExecState) (S : List ℕ) : Prop :=
  SClosed s.tasks S ∧ ∀ id ∈ S, id ∉ s.completed_tasks ∧ id ∉ s.failed_tasks

theorem findTask_markFailed (s : ExecState) (x id : ℕ) (t : ScanTask)
    (h : findTask s.tasks id = some t) :
    ∃ t', findTask (markFailed s x).tasks id = some t' ∧
      t'.dependencies = t.dependencies := by
  unfold markFailed
  dsimp only
  by_cases hx : id = x
  · subst hx
    exact ⟨_, findTask_updateTask s.tasks id
      (fun u => { u with error := some "Dependency failed" }) (fun u => rfl) t h, rfl⟩
  · refine ⟨t, ?_, rfl⟩
    rw [findTask_updateTask_ne s.tasks x id
      (fun u => { u with error := some "Dependency failed" }) (fun u => rfl) hx]
    exact h

theorem getReadyScan_not_failed (q : List ℕ) : ∀ (s : ExecState) (id : ℕ) (t : ScanTask),
    findTask s.tasks id = some t →
    t.dependencies.all (fun d => s.completed_tasks.contains d) = true →
    id ∉ s.failed_tasks →
    id ∉ (getReadyScan s q).2.failed_tasks ∧
      ∃ t', findTask (getReadyScan s q).2.tasks id = some t' := by
  induction q with
  | nil =>
      intro s id t ht _ hnf
      exact ⟨hnf, t, ht⟩
  | cons x rest ih =>
      intro s id t ht hdeps hnf
      rw [getReadyScan_cons]
      by_cases hterm : (s.completed_tasks.contains x || s.failed_tasks.contains x) = true
      · rw [if_pos hterm]
        exact ih s id t ht hdeps hnf
      · rw [if_neg hterm]
        cases hfx : findTask s.tasks x with
        | none => exact ih s id t ht hdeps hnf
        | some tx =>
            dsimp only
            by_cases hall : tx.dependencies.all (fun d => s.completed_tasks.contains d) = true
            · rw [if_pos hall]
              exact ih s id t ht hdeps hnf
            · rw [if_neg hall]
              by_cases hany : tx.dependencies.any (fun d => s.failed_tasks.contains d) = true
              · rw [if_pos hany]
                by_cases hxid : x = id
                · subst hxid
                  rw [ht] at hfx
                  cases hfx
                  exact absurd hdeps hall
                · obtain ⟨t1, ht1, hd1⟩ := findTask_markFailed s x id t ht
                  refine ih (markFailed s x) id t1 ht1 ?_ ?_
                  · show t1.dependencies.all
                      (fun d => s.completed_tasks.contains d) = true
                    rw [hd1]
                    exact hdeps
                  · show id ∉ s.failed_tasks ++ [x]
                    intro hmem
                    rcases List.mem_append.mp hmem with hmm | hmm
                    · exact hnf hmm
                    · exact hxid ((by simpa using hmm : id = x)).symm
              · rw [if_neg hany]
                exact ih s id t ht hdeps hnf

theorem getReadyScan_ready_props (q : List ℕ) : ∀ (s : ExecState) (id : ℕ),
    id ∈ (getReadyScan s q).1 →
    id ∉ (getReadyScan s q).2.completed_tasks ∧
      id ∉ (getReadyScan s q).2.failed_tasks ∧
      ∃ t', findTask (getReadyScan s q).2.tasks id = some t' := by
  induction q with
  | nil =>
      intro s id hm
      exact absurd hm (by simp [getReadyScan])
  | cons x rest ih =>
      intro s id hm
      rw [getReadyScan_cons] at hm ⊢
      by_cases hterm : (s.completed_tasks.contains x || s.failed_tasks.contains x) = true
      · rw [if_pos hterm] at hm ⊢
        exact ih s id hm
      · rw [if_neg hterm] at hm ⊢
        cases hfx : findTask s.tasks x with
        | none =>
            rw [hfx] at hm
            dsimp only at hm
            exact ih s id hm
        | some tx =>
            rw [hfx] at hm
            dsimp only at hm ⊢
            by_cases hall : tx.dependencies.all (fun d => s.completed_tasks.contains d) = true
            · rw [if_pos hall] at hm ⊢
              have hm' : id = x ∨ id ∈ (getReadyScan s rest).1 := by simpa using hm
              cases hm' with
              | inr hmm => exact ih s id hmm
              | inl hmm =>
                  subst hmm
                  have hnc : id ∉ s.completed_tasks ∧ id ∉ s.failed_tasks := by
                    constructor
                    · intro hmem
                      exact hterm (by rw [(contains_eq_mem s.completed_tasks id).mpr hmem]; rfl)
                    · intro hmem
                      exact hterm (by rw [(contains_eq_mem s.failed_tasks id).mpr hmem]; simp)
                  have hb := getReadyScan_not_failed rest s id tx hfx hall hnc.2
                  refine ⟨?_, hb.1, hb.2⟩
                  show id ∉ (getReadyScan s rest).2.completed_tasks
                  rw [getReadyScan_completed rest s]
                  exact hnc.1
            · rw [if_neg hall] at hm ⊢
              by_cases hany : tx.dependencies.any (fun d => s.failed_tasks.contains d) = true
              · rw [if_pos hany] at hm ⊢
                exact ih (markFailed s x) id hm
              · rw [if_neg hany] at hm ⊢
                exact ih s id hm

theorem getReady_props (s : ExecState) (id : ℕ) (hm : id ∈ (getReady s).1) :
    id ∉ (getReady s).2.completed_tasks ∧ id ∉ (getReady s).2.failed_tasks ∧
      ∃ t', findTask (getReady s).2.tasks id = some t' := by
  have hm' : id ∈ (getReadyScan s s.task_queue).1 :=
    (mem_sortQueue (getReadyScan s s.task_queue).2.tasks id _).mp hm
  exact getReadyScan_ready_props s.task_queue s id hm'

theorem runReady_budget_lt (s : ExecState) (id : ℕ) (rest : List ℕ)
    (h1 : 0 < s.limits.max_concurrent_tasks)
    (h2 : 0 < s.limits.max_cpu_intensive_tasks)
    (h3 : 0 < s.limits.max_network_tasks)
    (hnc : id ∉ s.completed_tasks) (hnf : id ∉ s.failed_tasks)
    (t : ScanTask) (hft : findTask s.tasks id = some t) :
    pendingBudget (runReady s (id :: rest)) < pendingBudget s := by
  unfold runReady
  have hcond : (s.completed_tasks.contains id || s.failed_tasks.contains id) = false := by
    simp only [Bool.or_eq_false_iff]
    constructor
    · cases hc : s.completed_tasks.contains id with
      | false => rfl
      | true => exact absurd ((contains_eq_mem _ _).mp hc) hnc
    · cases hc : s.failed_tasks.contains id with
      | false => rfl
      | true => exact absurd ((contains_eq_mem _ _).mp hc) hnf
  simp only [hcond, Bool.false_eq_true, if_false]
  rw [hft]
  dsimp only
  rw [canStart_of_pos s t h1 h2 h3]
  simp only [if_true]
  refine lt_of_le_of_lt (runReady_budget_le rest (runTask s id)) ?_
  refine runTask_budget_lt s id t hft ?_
  intro hmem
  cases hmem with
  | inl hmm => exact hnc hmm
  | inr hmm => exact hnf hmm

theorem execLoop_succ (fuel : ℕ) (s : ExecState) :
    execLoop (fuel + 1) s =
      if hasPending s then
        if (getReady s).1.isEmpty then some (getReady s).2
        else execLoop fuel (runReady (getReady s).2 (getReady s).1)
      else some s := rfl

theorem pendingBudget_lt_fuelFor (s : ExecState) : pendingBudget s < fuelFor s := by
  unfold pendingBudget fuelFor
  have h : (s.tasks.map (contrib s.completed_tasks s.failed_tasks)).sum ≤
      (s.tasks.map (fun t => t.max_retries + 2)).sum :=
    List.sum_le_sum (fun t _ => contrib_le_bound s.completed_tasks s.failed_tasks t)
  omega

theorem execLoop_isSome (fuel : ℕ) : ∀ s : ExecState,
    pendingBudget s < fuel →
    0 < s.limits.max_concurrent_tasks →
    0 < s.limits.max_cpu_intensive_tasks →
    0 < s.limits.max_network_tasks →
    (execLoop fuel s).isSome = true := by
  induction fuel with
  | zero =>
      intro s hb _ _ _
      exact absurd hb (Nat.not_lt_zero _)
  | succ fuel ih =>
      intro s hb h1 h2 h3
      rw [execLoop_succ]
      by_cases hp : hasPending s = true
      · rw [if_pos hp]
        by_cases hre : (getReady s).1.isEmpty = true
        · rw [if_pos hre]
          rfl
        · rw [if_neg hre]
          have hlim : (getReady s).2.limits = s.limits :=
            getReadyScan_limits s.task_queue s
          cases hl : (getReady s).1 with
          | nil =>
              rw [hl] at hre
              exact absurd rfl hre
          | cons a as =>
              have hprops := getReady_props s a (by rw [hl]; exact List.mem_cons_self a as)
              obtain ⟨hpc, hpf, t, hpt⟩ := hprops
              have hdrop : pendingBudget (runReady (getReady s).2 (a :: as)) <
                  pendingBudget (getReady s).2 := by
                refine runReady_budget_lt (getReady s).2 a as ?_ ?_ ?_ hpc hpf t hpt
                · rw [hlim]; exact h1
                · rw [hlim]; exact h2
                · rw [hlim]; exact h3
              have hscan : pendingBudget (getReady s).2 ≤ pendingBudget s :=
                getReadyScan_budget_le s.task_queue s
              have hrl : (runReady (getReady s).2 (a :: as)).limits = s.limits := by
                rw [runReady_limits (a :: as) (getReady s).2, hlim]
              refine ih _ ?_ ?_ ?_ ?_
              · omega
              · rw [hrl]; exact h1
              · rw [hrl]; exact h2
              · rw [hrl]; exact h3
      · rw [if_neg hp]
        rfl

theorem SClosed_updateTask (tasks : List ScanTask) (S : List ℕ) (x : ℕ)
    (f : ScanTask → ScanTask)
    (hf : ∀ u, (f u).task_id = u.task_id ∧ (f u).dependencies = u.dependencies)
    (h : SClosed tasks S) : SClosed (updateTask tasks x f) S := by
  intro id hid
  obtain ⟨t, ht, hd1, hd2⟩ := h id hid
  by_cases hx : id = x
  · subst hx
    refine ⟨f t, findTask_updateTask tasks id f (fun u => (hf u).1) t ht, ?_, ?_⟩
    · rw [(hf t).2]; exact hd1
    · rw [(hf t).2]; exact hd2
  · refine ⟨t, ?_, hd1, hd2⟩
    rw [findTask_updateTask_ne tasks x id f (fun u => (hf u).1) hx]
    exact ht

theorem SFree_taskCompleted (s : ExecState) (x : ℕ) (res : Except String ℕ)
    (S : List ℕ) (hx : x ∉ S) (h : SFree s S) : SFree (taskCompleted s x res) S := by
  obtain ⟨hc, hterm⟩ := h
  unfold taskCompleted
  dsimp only
  cases res with
  | ok v =>
      refine ⟨?_, ?_⟩
      · exact SClosed_updateTask _ _ _ _ (fun u => ⟨rfl, rfl⟩)
          (SClosed_updateTask _ _ _ _ (fun u => ⟨rfl, rfl⟩) hc)
      · intro id hid
        refine ⟨?_, (hterm id hid).2⟩
        show id ∉ s.completed_tasks ++ [x]
        intro hmem
        rcases List.mem_append.mp hmem with hmm | hmm
        · exact (hterm id hid).1 hmm
        · have hix : id = x := by simpa using hmm
          rw [hix] at hid
          exact hx hid
  | error e =>
      dsimp only
      cases hft : findTask (updateTask s.tasks x
          (fun t => { t with completed_at := some s.clock })) x with
      | none =>
          dsimp only
          exact ⟨SClosed_updateTask _ _ _ _ (fun u => ⟨rfl, rfl⟩) hc,
            fun id hid => hterm id hid⟩
      | some t1 =>
          dsimp only
          split
          · refine ⟨?_, fun id hid => hterm id hid⟩
            exact SClosed_updateTask _ _ _ _ (fun u => ⟨rfl, rfl⟩)
              (SClosed_updateTask _ _ _ _ (fun u => ⟨rfl, rfl⟩) hc)
          · refine ⟨?_, ?_⟩
            · exact SClosed_updateTask _ _ _ _ (fun u => ⟨rfl, rfl⟩)
                (SClosed_updateTask _ _ _ _ (fun u => ⟨rfl, rfl⟩) hc)
            · intro id hid
              refine ⟨(hterm id hid).1, ?_⟩
              show id ∉ s.failed_tasks ++ [x]
              intro hmem
              rcases List.mem_append.mp hmem with hmm | hmm
              · exact (hterm id hid).2 hmm
              · have hix : id = x := by simpa using hmm
                rw [hix] at hid
                exact hx hid

theorem SFree_runTask (s : ExecState) (x : ℕ) (S : List ℕ)
    (hx : x ∉ S) (h : SFree s S) : SFree (runTask s x) S := by
  unfold runTask
  cases hft : findTask s.tasks x with
  | none => exact h
  | some t =>
      dsimp only
      refine SFree_taskCompleted _ _ _ _ hx ?_
      exact ⟨SClosed_updateTask _ _ _ _ (fun u => ⟨rfl, rfl⟩) h.1, h.2⟩

theorem SFree_runReady (l : List ℕ) : ∀ (s : ExecState) (S : List ℕ),
    (∀ id ∈ l, id ∉ S) → SFree s S → SFree (runReady s l) S := by
  induction l with
  | nil => intro s S _ h; exact h
  | cons x rest ih =>
      intro s S hl h
      unfold runReady
      split
      · exact ih s S (fun id hid => hl id (List.mem_cons_of_mem _ hid)) h
      · split
        · exact ih s S (fun id hid => hl id (List.mem_cons_of_mem _ hid)) h
        · split
          · exact ih (runTask s x) S (fun id hid => hl id (List.mem_cons_of_mem _ hid))
              (SFree_runTask s x S (hl x (List.mem_cons_self x rest)) h)
          · exact h

theorem getReadyScan_SFree (q : List ℕ) : ∀ (s : ExecState) (S : List ℕ),
    SFree s S →
    SFree (getReadyScan s q).2 S ∧ ∀ id ∈ (getReadyScan s q).1, id ∉ S := by
  induction q with
  | nil =>
      intro s S h
      exact ⟨h, fun id hid => absurd hid (by simp [getReadyScan])⟩
  | cons x rest ih =>
      intro s S h
      rw [getReadyScan_cons]
      by_cases hterm : (s.completed_tasks.contains x || s.failed_tasks.contains x) = true
      · rw [if_pos hterm]
        exact ih s S h
      · rw [if_neg hterm]
        cases hfx : findTask s.tasks x with
        | none => exact ih s S h
        | some tx =>
            dsimp only
            by_cases hall : tx.dependencies.all (fun d => s.completed_tasks.contains d) = true
            · rw [if_pos hall]
              refine ⟨(ih s S h).1, ?_⟩
              intro id hid
              have hm' : id = x ∨ id ∈ (getReadyScan s rest).1 := by simpa using hid
              cases hm' with
              | inr hmm => exact (ih s S h).2 id hmm
              | inl hmm =>
                  subst hmm
                  intro hxS
                  obtain ⟨t, ht, hdne, hdsub⟩ := h.1 id hxS
                  rw [ht] at hfx
                  cases hfx
                  cases hdeps : tx.dependencies with
                  | nil => exact hdne hdeps
                  | cons d ds =>
                      rw [hdeps] at hall
                      simp only [List.all_cons, Bool.and_eq_true] at hall
                      have hdS : d ∈ S :=
                        hdsub d (by rw [hdeps]; exact List.mem_cons_self d ds)
                      exact (h.2 d hdS).1 ((contains_eq_mem _ _).mp hall.1)
            · rw [if_neg hall]
              by_cases hany : tx.dependencies.any (fun d => s.failed_tasks.contains d) = true
              · rw [if_pos hany]
                have hxS : x ∉ S := by
                  intro hxS
                  obtain ⟨t, ht, hdne, hdsub⟩ := h.1 x hxS
                  rw [ht] at hfx
                  cases hfx
                  obtain ⟨d, hdmem, hdf⟩ := List.any_eq_true.mp hany
                  exact (h.2 d (hdsub d hdmem)).2 ((contains_eq_mem _ _).mp hdf)
                refine ih (markFailed s x) S ⟨?_, ?_⟩
                · exact SClosed_updateTask _ _ _ _ (fun u => ⟨rfl, rfl⟩) h.1
                · intro id hid
                  refine ⟨(h.2 id hid).1, ?_⟩
                  show id ∉ s.failed_tasks ++ [x]
                  intro hmem
                  rcases List.mem_append.mp hmem with hmm | hmm
                  · exact (h.2 id hid).2 hmm
                  · have hix : id = x := by simpa using hmm
                    rw [hix] at hid
                    exact hxS hid
              · rw [if_neg hany]
                exact ih s S h

theorem execLoop_SFree (fuel : ℕ) : ∀ (s sF : ExecState) (S : List ℕ),
    execLoop fuel s = some sF → SFree s S → SFree sF S := by
  induction fuel with
  | zero =>
      intro s sF S hl _
      exact absurd hl (by simp [execLoop])
  | succ fuel ih =>
      intro s sF S hl hfree
      rw [execLoop_succ] at hl
      by_cases hp : hasPending s = true
      · rw [if_pos hp] at hl
        by_cases hre : (getReady s).1.isEmpty = true
        · rw [if_pos hre] at hl
          cases hl
          exact (getReadyScan_SFree s.task_queue s S hfree).1
        · rw [if_neg hre] at hl
          refine ih _ sF S hl ?_
          have hscan := getReadyScan_SFree s.task_queue s S hfree
          refine SFree_runReady _ _ _ ?_ hscan.1
          intro id hid
          exact hscan.2 id
            ((mem_sortQueue (getReadyScan s s.task_queue).2.tasks id _).mp hid)
      · rw [if_neg hp] at hl
        cases hl
        exact hfree

theorem executeAll_eq (s : ExecState) :
    executeAll s =
      if s.tasks.isEmpty then
        some ({ status := "no_tasks", results := [], errors := [] }, s)
      else
        match execLoop (fuelFor (startStamp s)) (startStamp s) with
        | none => none
        | some s1 =>
            some ({ status := "completed",
                    results := s1.completed_tasks.map (fun id =>
                      (id, resultOf { s1 with end_time := some s1.clock, clock := s1.clock + 1 } id)),
                    errors := s1.failed_tasks.map (fun id =>
                      (id, errorOf { s1 with end_time := some s1.clock, clock := s1.clock + 1 } id)) },
                  { s1 with end_time := some s1.clock, clock := s1.clock + 1 }) := rfl

/-- C2. Corrected form. A task set whose dependency graph contains a closed
deadlocked subset `S` (for instance a dependency cycle): `execute_all` still
terminates and returns (given positive resource limits), but — contrary to
the claim — the tasks of `S` are never marked failed: they appear neither in
the results map nor in the errors map of the returned summary, so they are
left pending, absent from both terminal states. -/
theorem executeAll_deadlock_terminates_unreported (s : ExecState) (S : List ℕ)
    (h1 : 0 < s.limits.max_concurrent_tasks)
    (h2 : 0 < s.limits.max_cpu_intensive_tasks)
    (h3 : 0 < s.limits.max_network_tasks)
    (hfree : SFree s S) :
    ∃ res sF, executeAll s = some (res, sF) ∧
      ∀ id ∈ S, (∀ p ∈ res.results, p.1 ≠ id) ∧ ∀ p ∈ res.errors, p.1 ≠ id := by
  rw [executeAll_eq]
  by_cases he : s.tasks.isEmpty = true
  · rw [if_pos he]
    refine ⟨_, s, rfl, ?_⟩
    intro id hid
    constructor <;> intro p hp <;> exact absurd hp (List.not_mem_nil p)
  · rw [if_neg he]
    obtain ⟨sL, hsL⟩ := Option.isSome_iff_exists.mp
      (execLoop_isSome (fuelFor (startStamp s)) (startStamp s)
        (pendingBudget_lt_fuelFor (startStamp s)) h1 h2 h3)
    rw [hsL]
    have hS : SFree sL S := execLoop_SFree (fuelFor (startStamp s)) (startStamp s) sL S hsL hfree
    refine ⟨_, _, rfl, ?_⟩
    intro id hid
    constructor
    · intro p hp hpid
      obtain ⟨a, ha, hpa⟩ := List.mem_map.mp hp
      rw [← hpa] at hpid
      have hai : a = id := by simpa using hpid
      rw [hai] at ha
      exact (hS.2 id hid).1 ha
    · intro p hp hpid
      obtain ⟨a, ha, hpa⟩ := List.mem_map.mp hp
      rw [← hpa] at hpid
      have hai : a = id := by simpa using hpid
      rw [hai] at ha
      exact (hS.2 id hid).2 ha

/-- Task 1 of a two-task dependency cycle (1 depends on 2, 2 on 1). -/
def cycTaskA : ScanTask :=
  { task_id := 1, priority := .normal, dependencies := [2],
    op := fun _ => .ok 0, cpu_intensive := false, network_intensive := true,
    started_at := none, completed_at := none, result := none, error := none,
    retries := 0, max_retries := 2, invocations := 0 }

def cycTaskB : ScanTask :=
  { task_id := 2, priority := .normal, dependencies := [1],
    op := fun _ => .ok 0, cpu_intensive := false, network_intensive := true,
    started_at := none, completed_at := none, result := none, error := none,
    retries := 0, max_retries := 2, invocations := 0 }

def cycExec : ExecState :=
  { limits := { max_concurrent_tasks := 6, max_cpu_intensive_tasks := 2,
                max_network_tasks := 10 },
    tasks := [cycTaskA, cycTaskB], completed_tasks := [], failed_tasks := [],
    task_queue := [1, 2], clock := 0, start_time := none, end_time := none }

/-- `cycExec` with the `start_time` metric stamped by `executeAll`. -/
def cycExecS : ExecState :=
  { limits := { max_concurrent_tasks := 6, max_cpu_intensive_tasks := 2,
                max_network_tasks := 10 },
    tasks := [cycTaskA, cycTaskB], completed_tasks := [], failed_tasks := [],
    task_queue := [1, 2], clock := 1, start_time := some 0, end_time := none }

/-- Final state of `executeAll` on the cycle. -/
def cycExecF : ExecState :=
  { limits := { max_concurrent_tasks := 6, max_cpu_intensive_tasks := 2,
                max_network_tasks := 10 },
    tasks := [cycTaskA, cycTaskB], completed_tasks := [], failed_tasks := [],
    task_queue := [1, 2], clock := 2, start_time := some 0, end_time := some 1 }

/-- C2 counterexample: on a two-task dependency cycle `execute_all` does
terminate, but neither task is marked failed: the returned results and
errors maps are both empty though two tasks were submitted, so the cyclic
tasks are in neither terminal state. -/
theorem cyclic_tasks_unreported :
    executeAll cycExec = some
      ({ status := "completed", results := [], errors := [] }, cycExecF) ∧
      cycExec.tasks.length = 2 := by
  have hloop : execLoop 9 cycExecS = some cycExecS :=
    execLoop_succ_stop 8 cycExecS cycExecS [] rfl rfl rfl
  have h := executeAll_eq_of_loop cycExec cycExecS rfl hloop
  rw [h]
  exact ⟨rfl, rfl⟩

/-- Witness for `executeAll_deadlock_terminates_unreported`: the two-task
cycle with the default limits. -/
theorem executeAll_deadlock_terminates_unreported_witness :
    ∃ res sF, executeAll cycExec = some (res, sF) ∧
      ∀ id ∈ [1, 2], (∀ p ∈ res.results, p.1 ≠ id) ∧ ∀ p ∈ res.errors, p.1 ≠ id :=
  executeAll_deadlock_terminates_unreported cycExec [1, 2]
    (by decide) (by decide) (by decide)
    ⟨by
      intro id hid
      have h12 : id = 1 ∨ id = 2 := by simpa using hid
      rcases h12 with rfl | rfl
      · exact ⟨cycTaskA, rfl, by decide, by decide⟩
      · exact ⟨cycTaskB, rfl, by decide, by decide⟩,
     by
      intro id hid
      exact ⟨by simp [cycExec], by simp [cycExec]⟩⟩

end PE

end Phantom
